import Mathlib

/-!
# Baked-in validation predicates (`baked_in.go`)

A shallow embedding of the validation predicates of the Go package
`validator`: `required`, `length`, `min`, `max`, `lt`, `lte`, `gt`, `gte`,
the eleven format matchers, the registry `BakedInValidators` and the
parameter coercions `asInt`, `asUint`, `asFloat`.

* A Go `panic` is an `Except.error` carrying the kind of the fault.
* A value of type `interface{}` is a `Value`: what `reflect.ValueOf`, the
  accessors `Kind`, `String`, `Len`, `Int`, `Uint`, `Float` and the interface
  comparison `!=` can observe of it.
* A Go string is modelled by the text it holds (valid UTF-8); the builtin
  `len` of a string is its number of bytes, `String.utf8ByteSize`. The
  parsers of `strconv` read a string byte by byte and accept ASCII bytes
  only; here they read it character by character, and reject a character
  outside ASCII as Go rejects the first of its bytes.
* `strconv.ParseInt(s, 0, 64)` and `strconv.ParseUint(s, 0, 64)` are library
  functions of Go; they are transcribed from the Go standard library, with
  the 64-bit wrap-around of the accumulator made explicit.
* `strconv.ParseFloat` is a parameter of the development, and so are the
  compiled patterns of the format matchers.
-/

namespace Validator

/-! ## Faults -/

/-- The kinds of panic a predicate can end in. `MalformedParameter` is
`panic("Bad Input Param ...")`, `UnsupportedFieldType` is
`panic("Bad field type ...")`, and `RuntimePanic` is a panic raised by the Go
runtime or the reflect library rather than by the package, such as the
run-time error of comparing two interface values of one uncomparable dynamic
type. -/
inductive Fault where
  | MalformedParameter
  | UnsupportedFieldType
  | RuntimePanic
  deriving DecidableEq, Repr

deriving instance DecidableEq for Except

/-! ## `strconv`: integer parsing with base 0 and bit size 64 -/

/-- The two error classes of `strconv.NumError`: `ErrSyntax` and `ErrRange`. -/
inductive NumError where
  | invalid
  | range
  deriving DecidableEq, Repr

/-- The largest `uint64`. -/
def maxUint64 : Nat := 2 ^ 64 - 1

/-- Go `lower(c)`, that is `c | ('x' - 'X')`. -/
def lower (c : Nat) : Nat := c ||| ('x'.toNat - 'X'.toNat)

/-- The digit a byte stands for in `ParseUint`: `c - '0'` for a decimal
digit, `lower(c) - 'a' + 10` for a letter, and none otherwise. -/
def digitVal (c : Char) : Option Nat :=
  if '0'.toNat ≤ c.toNat ∧ c.toNat ≤ '9'.toNat then some (c.toNat - '0'.toNat)
  else if 'a'.toNat ≤ lower c.toNat ∧ lower c.toNat ≤ 'z'.toNat then
    some (lower c.toNat - 'a'.toNat + 10)
  else none

/-- The byte `s[i]` of a string, as a number. -/
def byteAt (s : List Char) (i : Nat) : Nat := (s.getD i (Char.ofNat 0)).toNat

/-- The base selection of `ParseUint` when called with base 0: the base and
the digits that remain after the base marker. -/
def pickBase (s : List Char) : Nat × List Char :=
  if byteAt s 0 = '0'.toNat then
    if s.length ≥ 3 ∧ lower (byteAt s 1) = 'b'.toNat then (2, s.drop 2)
    else if s.length ≥ 3 ∧ lower (byteAt s 1) = 'o'.toNat then (8, s.drop 2)
    else if s.length ≥ 3 ∧ lower (byteAt s 1) = 'x'.toNat then (16, s.drop 2)
    else (8, s.drop 1)
  else (10, s)

/-- The digit loop of `ParseUint` with base 0 (so an underscore is skipped
and remembered). The state is the accumulator `n`, a `uint64`, and the flag
`underscores`. -/
def digitLoop (base : Nat) (cutoff maxVal : Nat) :
    List Char → Nat → Bool → Except NumError (Nat × Bool)
  | [], n, underscores => .ok (n, underscores)
  | c :: cs, n, underscores =>
    if c = '_' then digitLoop base cutoff maxVal cs n true
    else
      match digitVal c with
      | none => .error .invalid
      | some d =>
        if d ≥ base then .error .invalid
        else if n ≥ cutoff then .error .range
        else
          let m := (n * base) % 2 ^ 64
          let n1 := (m + d) % 2 ^ 64
          if n1 < m ∨ n1 > maxVal then .error .range
          else digitLoop base cutoff maxVal cs n1 underscores

/-- What `underscoreOK` remembers of the last character seen: the beginning
of the number, a digit or base marker, an underscore, anything else. -/
inductive Saw where
  | start
  | digit
  | underscore
  | other
  deriving DecidableEq, Repr

/-- The scan of `underscoreOK` over the number proper. -/
def underscoreScan (hex : Bool) : List Char → Saw → Bool
  | [], saw => decide (saw ≠ .underscore)
  | c :: cs, saw =>
    if ('0'.toNat ≤ c.toNat ∧ c.toNat ≤ '9'.toNat) ∨
        (hex = true ∧ 'a'.toNat ≤ lower c.toNat ∧ lower c.toNat ≤ 'f'.toNat) then
      underscoreScan hex cs .digit
    else if c = '_' then
      if saw ≠ .digit then false else underscoreScan hex cs .underscore
    else if saw = .underscore then false
    else underscoreScan hex cs .other

/-- Go `underscoreOK`: underscores must separate digits, or a base marker
and a digit. -/
def underscoreOK (s0 : List Char) : Bool :=
  let s := if s0.length ≥ 1 ∧ (byteAt s0 0 = '-'.toNat ∨ byteAt s0 0 = '+'.toNat)
    then s0.drop 1 else s0
  if s.length ≥ 2 ∧ byteAt s 0 = '0'.toNat ∧
      (lower (byteAt s 1) = 'b'.toNat ∨ lower (byteAt s 1) = 'o'.toNat ∨
        lower (byteAt s 1) = 'x'.toNat) then
    underscoreScan (decide (lower (byteAt s 1) = 'x'.toNat)) (s.drop 2) .digit
  else underscoreScan false s .start

/-- Go `strconv.ParseUint(s, 0, 64)`: the value returned and the error, if any. -/
def ParseUint (s : List Char) : Nat × Option NumError :=
  if s = [] then (0, some .invalid)
  else
    let bs := pickBase s
    let base := bs.1
    let cutoff := maxUint64 / base + 1
    let maxVal := 2 ^ 64 - 1
    match digitLoop base cutoff maxVal bs.2 0 false with
    | .error .invalid => (0, some .invalid)
    | .error .range => (maxVal, some .range)
    | .ok (n, underscores) =>
      if underscores = true ∧ underscoreOK s = false then (0, some .invalid)
      else (n, none)

/-- Go `strconv.ParseInt(s, 0, 64)`: the value returned and the error, if any. -/
def ParseInt (s : List Char) : Int × Option NumError :=
  if s = [] then (0, some .invalid)
  else
    let neg := decide (byteAt s 0 = '-'.toNat)
    let s1 := if byteAt s 0 = '+'.toNat ∨ byteAt s 0 = '-'.toNat then s.drop 1 else s
    let r := ParseUint s1
    let un := r.1
    if r.2 = some .invalid then (0, some .invalid)
    else
      let cutoff : Nat := 2 ^ 63
      if neg = false ∧ un ≥ cutoff then ((cutoff : Int) - 1, some .range)
      else if neg = true ∧ un > cutoff then (-(cutoff : Int), some .range)
      else (if neg = true then -(un : Int) else (un : Int), none)

/-! ## Floating-point values -/

/-- A `float64`, given by its IEEE 754 bit pattern (a number below `2 ^ 64`). -/
structure F64 where
  bits : Nat
  deriving DecidableEq, Repr

namespace F64

/-- The value `+0`. -/
def zero : F64 := ⟨0⟩

/-- Not a number: all exponent bits set and a non-zero mantissa. -/
def isNaN (x : F64) : Bool := x.bits / 2 ^ 52 % 2048 == 2047 && x.bits % 2 ^ 52 != 0

/-- The position of a value that is not NaN in the order of the floats: the
magnitude bits, negated when the sign bit is set. Both zeros are at 0. -/
def key (x : F64) : Int :=
  if x.bits / 2 ^ 63 % 2 = 1 then -((x.bits % 2 ^ 63 : Nat) : Int) else ((x.bits % 2 ^ 63 : Nat) : Int)

/-- Go `x == y` on floats. -/
def eq (x y : F64) : Bool := !x.isNaN && !y.isNaN && decide (x.key = y.key)

/-- Go `x != y` on floats. -/
def ne (x y : F64) : Bool := !(eq x y)

/-- Go `x < y` on floats. -/
def lt (x y : F64) : Bool := !x.isNaN && !y.isNaN && decide (x.key < y.key)

/-- Go `x <= y` on floats. -/
def le (x y : F64) : Bool := !x.isNaN && !y.isNaN && decide (x.key ≤ y.key)

/-- Go `x > y` on floats. -/
def gt (x y : F64) : Bool := !x.isNaN && !y.isNaN && decide (x.key > y.key)

/-- Go `x >= y` on floats. -/
def ge (x y : F64) : Bool := !x.isNaN && !y.isNaN && decide (x.key ≥ y.key)

end F64

/-! ## Parameter coercion -/

/-- Go `asInt`: the parameter as an `int64`, or a panic if it cannot be
converted. -/
def asInt (param : String) : Except Fault Int :=
  match ParseInt param.toList with
  | (i, none) => .ok i
  | (_, some _) => .error .MalformedParameter

/-- Go `asUint`: the parameter as a `uint64`, or a panic if it cannot be
converted. -/
def asUint (param : String) : Except Fault Nat :=
  match ParseUint param.toList with
  | (i, none) => .ok i
  | (_, some _) => .error .MalformedParameter

/-- Go `asFloat`: the parameter as a `float64`, or a panic if it cannot be
converted. `ParseFloat` stands for `strconv.ParseFloat(param, 64)`, giving
none exactly when Go returns an error. -/
def asFloat (ParseFloat : String → Option F64) (param : String) : Except Fault F64 :=
  match ParseFloat param with
  | some x => .ok x
  | none => .error .MalformedParameter

/-! ## Runtime values -/

/-- The kinds of `reflect.Kind`. -/
inductive Kind where
  | Invalid | Bool
  | Int | Int8 | Int16 | Int32 | Int64
  | Uint | Uint8 | Uint16 | Uint32 | Uint64 | Uintptr
  | Float32 | Float64 | Complex64 | Complex128
  | Array | Chan | Func | Interface | Map | Ptr | Slice | String | Struct
  | UnsafePointer
  deriving DecidableEq, Repr

/-- The signed integer types. -/
inductive IntKind where
  | Int | Int8 | Int16 | Int32 | Int64
  deriving DecidableEq, Repr

/-- The unsigned integer types. -/
inductive UintKind where
  | Uint | Uint8 | Uint16 | Uint32 | Uint64 | Uintptr
  deriving DecidableEq, Repr

/-- The floating-point types. -/
inductive FloatKind where
  | Float32 | Float64
  deriving DecidableEq, Repr

/-- The complex types. -/
inductive ComplexKind where
  | Complex64 | Complex128
  deriving DecidableEq, Repr

/-- A value passed as `field interface{}`, recorded by what the predicates
can observe of it.

* `nil` is the nil interface value (no dynamic type).
* `int k x`, `uint k x`: an integer of the given type; `x` is what
  `reflect.Value.Int` / `Uint` return.
* `float k x`: `x` is what `reflect.Value.Float` returns, the value itself
  for a `float64` and its exact widening for a `float32`.
* `str named s`: a value whose kind is string holding `s`; `named` tells
  whether its type is a defined type rather than `string` itself.
* `slice n`, `map n`: none for the nil slice or map, else the number of
  elements.
* `array n comparable isZero`: an array of `n` elements, with whether its
  type supports `==` and whether all its elements hold their zero value.
* `chan r`, `func r`, `ptr r`: none for nil, else a reference.
* `struct comparable isZero`: a struct value, by whether its type supports
  `==` (no field is, or contains, a slice, map or function) and whether all
  its fields hold their zero value. -/
inductive Value where
  | nil
  | bool (b : Bool)
  | int (k : IntKind) (x : Int)
  | uint (k : UintKind) (x : Nat)
  | float (k : FloatKind) (x : F64)
  | complex (k : ComplexKind) (re im : F64)
  | str (named : Bool) (s : String)
  | slice (n : Option Nat)
  | map (n : Option Nat)
  | array (n : Nat) (comparable isZero : Bool)
  | chan (r : Option Nat)
  | func (r : Option Nat)
  | ptr (r : Option Nat)
  | unsafePointer (addr : Nat)
  | struct (comparable isZero : Bool)
  deriving DecidableEq, Repr

/-- Go `reflect.ValueOf(field).Kind()`. -/
def Value.kind : Value → Kind
  | .nil => .Invalid
  | .bool _ => .Bool
  | .int .Int _ => .Int
  | .int .Int8 _ => .Int8
  | .int .Int16 _ => .Int16
  | .int .Int32 _ => .Int32
  | .int .Int64 _ => .Int64
  | .uint .Uint _ => .Uint
  | .uint .Uint8 _ => .Uint8
  | .uint .Uint16 _ => .Uint16
  | .uint .Uint32 _ => .Uint32
  | .uint .Uint64 _ => .Uint64
  | .uint .Uintptr _ => .Uintptr
  | .float .Float32 _ => .Float32
  | .float .Float64 _ => .Float64
  | .complex .Complex64 _ _ => .Complex64
  | .complex .Complex128 _ _ => .Complex128
  | .str _ _ => .String
  | .slice _ => .Slice
  | .map _ => .Map
  | .array _ _ _ => .Array
  | .chan _ => .Chan
  | .func _ => .Func
  | .ptr _ => .Ptr
  | .unsafePointer _ => .UnsafePointer
  | .struct _ _ => .Struct

/-- Go `st.String()` for a value of kind string. -/
def Value.getString : Value → String
  | .str _ s => s
  | _ => ""

/-- Go `st.Len()` for a slice, map or array: the number of elements. -/
def Value.len : Value → Nat
  | .slice n => n.getD 0
  | .map n => n.getD 0
  | .array n _ _ => n
  | _ => 0

/-- Go `st.Int()` for a signed integer. -/
def Value.getInt : Value → Int
  | .int _ x => x
  | _ => 0

/-- Go `st.Uint()` for an unsigned integer. -/
def Value.getUint : Value → Nat
  | .uint _ x => x
  | _ => 0

/-- Go `st.Float()` for a floating-point value. -/
def Value.getFloat : Value → F64
  | .float _ x => x
  | _ => F64.zero

/-- The outcome of `field != reflect.Zero(reflect.TypeOf(field)).Interface()`.
Both operands have the dynamic type of `field`, so this is the `!=` of that
type against its zero value; comparing two interface values whose common
dynamic type is not comparable panics, and `reflect.Zero` panics on the nil
type. -/
def Value.neZero : Value → Except Fault Bool
  | .nil => .error .RuntimePanic
  | .bool b => .ok (b != false)
  | .int _ x => .ok (decide (x ≠ 0))
  | .uint _ x => .ok (decide (x ≠ 0))
  | .float _ x => .ok (F64.ne x F64.zero)
  | .complex _ re im => .ok (!(F64.eq re F64.zero && F64.eq im F64.zero))
  | .str _ s => .ok (decide (s ≠ ""))
  | .slice _ => .error .RuntimePanic
  | .map _ => .error .RuntimePanic
  | .array _ comparable isZero => if comparable then .ok (!isZero) else .error .RuntimePanic
  | .chan r => .ok (decide (r ≠ none))
  | .func _ => .error .RuntimePanic
  | .ptr r => .ok (decide (r ≠ none))
  | .unsafePointer addr => .ok (decide (addr ≠ 0))
  | .struct comparable isZero => if comparable then .ok (!isZero) else .error .RuntimePanic

/-! ## The predicates -/

/-- Go `required`. -/
def required (field : Value) (_param : String) : Except Fault Bool :=
  let st := field
  match st.kind with
  | .Slice | .Map | .Array =>
    .ok (decide (field ≠ .nil) && decide ((st.len : Int) > 0))
  | _ =>
    if field ≠ .nil then field.neZero else .ok false

section Comparison

variable (ParseFloat : String → Option F64)

/-- Go `gte`. -/
def gte (field : Value) (param : String) : Except Fault Bool :=
  let st := field
  match st.kind with
  | .String => do
    let p ← asInt param
    pure (decide ((st.getString.utf8ByteSize : Int) ≥ p))
  | .Slice | .Map | .Array => do
    let p ← asInt param
    pure (decide ((st.len : Int) ≥ p))
  | .Int | .Int8 | .Int16 | .Int32 | .Int64 => do
    let p ← asInt param
    pure (decide (st.getInt ≥ p))
  | .Uint | .Uint8 | .Uint16 | .Uint32 | .Uint64 | .Uintptr => do
    let p ← asUint param
    pure (decide (st.getUint ≥ p))
  | .Float32 | .Float64 => do
    let p ← asFloat ParseFloat param
    pure (F64.ge st.getFloat p)
  | _ => .error .UnsupportedFieldType

/-- Go `gt`. -/
def gt (field : Value) (param : String) : Except Fault Bool :=
  let st := field
  match st.kind with
  | .String => do
    let p ← asInt param
    pure (decide ((st.getString.utf8ByteSize : Int) > p))
  | .Slice | .Map | .Array => do
    let p ← asInt param
    pure (decide ((st.len : Int) > p))
  | .Int | .Int8 | .Int16 | .Int32 | .Int64 => do
    let p ← asInt param
    pure (decide (st.getInt > p))
  | .Uint | .Uint8 | .Uint16 | .Uint32 | .Uint64 | .Uintptr => do
    let p ← asUint param
    pure (decide (st.getUint > p))
  | .Float32 | .Float64 => do
    let p ← asFloat ParseFloat param
    pure (F64.gt st.getFloat p)
  | _ => .error .UnsupportedFieldType

/-- Go `length`: tests whether a variable's length is equal to a given value. -/
def length (field : Value) (param : String) : Except Fault Bool :=
  let st := field
  match st.kind with
  | .String => do
    let p ← asInt param
    pure (decide ((st.getString.utf8ByteSize : Int) = p))
  | .Slice | .Map | .Array => do
    let p ← asInt param
    pure (decide ((st.len : Int) = p))
  | .Int | .Int8 | .Int16 | .Int32 | .Int64 => do
    let p ← asInt param
    pure (decide (st.getInt = p))
  | .Uint | .Uint8 | .Uint16 | .Uint32 | .Uint64 | .Uintptr => do
    let p ← asUint param
    pure (decide (st.getUint = p))
  | .Float32 | .Float64 => do
    let p ← asFloat ParseFloat param
    pure (F64.eq st.getFloat p)
  | _ => .error .UnsupportedFieldType

/-- Go `min`: delegates to `gte`. -/
def min (field : Value) (param : String) : Except Fault Bool :=
  gte ParseFloat field param

/-- Go `lte`. -/
def lte (field : Value) (param : String) : Except Fault Bool :=
  let st := field
  match st.kind with
  | .String => do
    let p ← asInt param
    pure (decide ((st.getString.utf8ByteSize : Int) ≤ p))
  | .Slice | .Map | .Array => do
    let p ← asInt param
    pure (decide ((st.len : Int) ≤ p))
  | .Int | .Int8 | .Int16 | .Int32 | .Int64 => do
    let p ← asInt param
    pure (decide (st.getInt ≤ p))
  | .Uint | .Uint8 | .Uint16 | .Uint32 | .Uint64 | .Uintptr => do
    let p ← asUint param
    pure (decide (st.getUint ≤ p))
  | .Float32 | .Float64 => do
    let p ← asFloat ParseFloat param
    pure (F64.le st.getFloat p)
  | _ => .error .UnsupportedFieldType

/-- Go `lt`. -/
def lt (field : Value) (param : String) : Except Fault Bool :=
  let st := field
  match st.kind with
  | .String => do
    let p ← asInt param
    pure (decide ((st.getString.utf8ByteSize : Int) < p))
  | .Slice | .Map | .Array => do
    let p ← asInt param
    pure (decide ((st.len : Int) < p))
  | .Int | .Int8 | .Int16 | .Int32 | .Int64 => do
    let p ← asInt param
    pure (decide (st.getInt < p))
  | .Uint | .Uint8 | .Uint16 | .Uint32 | .Uint64 | .Uintptr => do
    let p ← asUint param
    pure (decide (st.getUint < p))
  | .Float32 | .Float64 => do
    let p ← asFloat ParseFloat param
    pure (F64.lt st.getFloat p)
  | _ => .error .UnsupportedFieldType

/-- Go `max`: delegates to `lte`. -/
def max (field : Value) (param : String) : Except Fault Bool :=
  lte ParseFloat field param

end Comparison

/-! ## The format matchers -/

/-- The compiled patterns of the package. They are declared in a file that
is not among the sources at hand, so each one is taken as given, by its
`MatchString`. -/
structure Patterns where
  alphaRegex : String → Bool
  alphaNumericRegex : String → Bool
  numericRegex : String → Bool
  numberRegex : String → Bool
  hexadecimalRegex : String → Bool
  hexcolorRegex : String → Bool
  rgbRegex : String → Bool
  rgbaRegex : String → Bool
  hslRegex : String → Bool
  hslaRegex : String → Bool
  emailRegex : String → Bool

/-- Go `field.(string)`: the type assertion yields the string when the
dynamic type of `field` is `string` itself, and panics with a run-time error
on any other dynamic type, a defined string type included. -/
def Value.assertString : Value → Except Fault String
  | .str false s => .ok s
  | _ => .error .RuntimePanic

section Format

variable (R : Patterns)

/-- Go `email`. -/
def email (field : Value) (_param : String) : Except Fault Bool :=
  let st := field
  match st.kind with
  | .String => do
    let s ← field.assertString
    pure (R.emailRegex s)
  | _ => .error .UnsupportedFieldType

/-- Go `hsla`. -/
def hsla (field : Value) (_param : String) : Except Fault Bool :=
  let st := field
  match st.kind with
  | .String => do
    let s ← field.assertString
    pure (R.hslaRegex s)
  | _ => .error .UnsupportedFieldType

/-- Go `hsl`. -/
def hsl (field : Value) (_param : String) : Except Fault Bool :=
  let st := field
  match st.kind with
  | .String => do
    let s ← field.assertString
    pure (R.hslRegex s)
  | _ => .error .UnsupportedFieldType

/-- Go `rgba`. -/
def rgba (field : Value) (_param : String) : Except Fault Bool :=
  let st := field
  match st.kind with
  | .String => do
    let s ← field.assertString
    pure (R.rgbaRegex s)
  | _ => .error .UnsupportedFieldType

/-- Go `rgb`. -/
def rgb (field : Value) (_param : String) : Except Fault Bool :=
  let st := field
  match st.kind with
  | .String => do
    let s ← field.assertString
    pure (R.rgbRegex s)
  | _ => .error .UnsupportedFieldType

/-- Go `hexcolor`. -/
def hexcolor (field : Value) (_param : String) : Except Fault Bool :=
  let st := field
  match st.kind with
  | .String => do
    let s ← field.assertString
    pure (R.hexcolorRegex s)
  | _ => .error .UnsupportedFieldType

/-- Go `hexadecimal`. -/
def hexadecimal (field : Value) (_param : String) : Except Fault Bool :=
  let st := field
  match st.kind with
  | .String => do
    let s ← field.assertString
    pure (R.hexadecimalRegex s)
  | _ => .error .UnsupportedFieldType

/-- Go `number`. -/
def number (field : Value) (_param : String) : Except Fault Bool :=
  let st := field
  match st.kind with
  | .String => do
    let s ← field.assertString
    pure (R.numberRegex s)
  | _ => .error .UnsupportedFieldType

/-- Go `numeric`. -/
def numeric (field : Value) (_param : String) : Except Fault Bool :=
  let st := field
  match st.kind with
  | .String => do
    let s ← field.assertString
    pure (R.numericRegex s)
  | _ => .error .UnsupportedFieldType

/-- Go `alphanum`. -/
def alphanum (field : Value) (_param : String) : Except Fault Bool :=
  let st := field
  match st.kind with
  | .String => do
    let s ← field.assertString
    pure (R.alphaNumericRegex s)
  | _ => .error .UnsupportedFieldType

/-- Go `alpha`. -/
def alpha (field : Value) (_param : String) : Except Fault Bool :=
  let st := field
  match st.kind with
  | .String => do
    let s ← field.assertString
    pure (R.alphaRegex s)
  | _ => .error .UnsupportedFieldType

end Format

/-! ## The registry -/

/-- Go `ValidationFunc`. -/
abbrev ValidationFunc : Type := Value → String → Except Fault Bool

/-- Go `BakedInValidators`: the map literal, as the list of its entries. -/
def BakedInValidators (ParseFloat : String → Option F64) (R : Patterns) :
    List (String × ValidationFunc) :=
  [("required", required),
   ("len", length ParseFloat),
   ("min", min ParseFloat),
   ("max", max ParseFloat),
   ("lt", lt ParseFloat),
   ("lte", lte ParseFloat),
   ("gt", gt ParseFloat),
   ("gte", gte ParseFloat),
   ("alpha", alpha R),
   ("alphanum", alphanum R),
   ("numeric", numeric R),
   ("number", number R),
   ("hexadecimal", hexadecimal R),
   ("hexcolor", hexcolor R),
   ("rgb", rgb R),
   ("rgba", rgba R),
   ("hsl", hsl R),
   ("hsla", hsla R),
   ("email", email R)]

/-- The map index `BakedInValidators[name]`: the predicate registered under
a name, or none. -/
def Lookup (ParseFloat : String → Option F64) (R : Patterns) (name : String) :
    Option ValidationFunc :=
  (BakedInValidators ParseFloat R).lookup name

/-! ## The package state -/

/-- The built-in predicate functions of the package, by name. -/
inductive Builtin where
  | required | length | min | max | lt | lte | gt | gte
  | alpha | alphanum | numeric | number | hexadecimal | hexcolor
  | rgb | rgba | hsl | hsla | email
  deriving DecidableEq, Repr

/-- The package-level variables a call runs against: the eleven compiled
patterns and the map `BakedInValidators`, which binds rule names to built-in
functions. In Go both are ordinary variables that the program may reassign. -/
structure Globals where
  patterns : Patterns
  registry : List (String × Builtin)

/-- The contents of `BakedInValidators` as the map literal sets them. -/
def builtinRegistry : List (String × Builtin) :=
  [("required", .required),
   ("len", .length),
   ("min", .min),
   ("max", .max),
   ("lt", .lt),
   ("lte", .lte),
   ("gt", .gt),
   ("gte", .gte),
   ("alpha", .alpha),
   ("alphanum", .alphanum),
   ("numeric", .numeric),
   ("number", .number),
   ("hexadecimal", .hexadecimal),
   ("hexcolor", .hexcolor),
   ("rgb", .rgb),
   ("rgba", .rgba),
   ("hsl", .hsl),
   ("hsla", .hsla),
   ("email", .email)]

/-- One call of a built-in function in a state of the package: the outcome,
and the state the call leaves behind. `required` and the comparison
predicates read their two arguments only; a format matcher also reads its
pattern variable, as it stands when the call is made. No function body of
the source assigns a package variable, and a panic leaves them as they are,
so each call hands the state on as it received it. -/
def Builtin.call (ParseFloat : String → Option F64) :
    Builtin → Value → String → Globals → Except Fault Bool × Globals
  | .required, field, param, g => (Validator.required field param, g)
  | .length, field, param, g => (Validator.length ParseFloat field param, g)
  | .min, field, param, g => (Validator.min ParseFloat field param, g)
  | .max, field, param, g => (Validator.max ParseFloat field param, g)
  | .lt, field, param, g => (Validator.lt ParseFloat field param, g)
  | .lte, field, param, g => (Validator.lte ParseFloat field param, g)
  | .gt, field, param, g => (Validator.gt ParseFloat field param, g)
  | .gte, field, param, g => (Validator.gte ParseFloat field param, g)
  | .alpha, field, param, g => (Validator.alpha g.patterns field param, g)
  | .alphanum, field, param, g => (Validator.alphanum g.patterns field param, g)
  | .numeric, field, param, g => (Validator.numeric g.patterns field param, g)
  | .number, field, param, g => (Validator.number g.patterns field param, g)
  | .hexadecimal, field, param, g => (Validator.hexadecimal g.patterns field param, g)
  | .hexcolor, field, param, g => (Validator.hexcolor g.patterns field param, g)
  | .rgb, field, param, g => (Validator.rgb g.patterns field param, g)
  | .rgba, field, param, g => (Validator.rgba g.patterns field param, g)
  | .hsl, field, param, g => (Validator.hsl g.patterns field param, g)
  | .hsla, field, param, g => (Validator.hsla g.patterns field param, g)
  | .email, field, param, g => (Validator.email g.patterns field param, g)

/-- Whether a built-in function is one of the eleven format matchers. -/
def Builtin.isMatcher : Builtin → Bool
  | .required | .length | .min | .max | .lt | .lte | .gt | .gte => false
  | _ => true

/-! ## The vocabulary of the specification -/

/-- The value categories of the specification. -/
inductive Category where
  | Text | Sequence | SignedInteger | UnsignedInteger | FloatingPoint | Other
  deriving DecidableEq, Repr

/-- The category of a kind: text for strings, sequence for slices, maps and
arrays, the three numeric categories, and other for every remaining kind. -/
def Kind.category : Kind → Category
  | .String => .Text
  | .Slice | .Map | .Array => .Sequence
  | .Int | .Int8 | .Int16 | .Int32 | .Int64 => .SignedInteger
  | .Uint | .Uint8 | .Uint16 | .Uint32 | .Uint64 | .Uintptr => .UnsignedInteger
  | .Float32 | .Float64 => .FloatingPoint
  | _ => .Other

/-- The category of a value, found by introspection at call time. -/
def Value.category (v : Value) : Category := v.kind.category

/-- Whether the dynamic type of a value supports `==`. -/
def Value.comparable : Value → Bool
  | .slice _ => false
  | .map _ => false
  | .func _ => false
  | .array _ c _ => c
  | .struct c _ => c
  | _ => true

/-- Whether a value is equal, under Go `==`, to the zero value of its own
type: false, 0, the empty string, a nil reference, a composite all of whose
parts are zero. -/
def Value.equalsZero : Value → Bool
  | .nil => true
  | .bool b => b == false
  | .int _ x => decide (x = 0)
  | .uint _ x => decide (x = 0)
  | .float _ x => F64.eq x F64.zero
  | .complex _ re im => F64.eq re F64.zero && F64.eq im F64.zero
  | .str _ s => decide (s = "")
  | .slice n => decide (n = none)
  | .map n => decide (n = none)
  | .array _ _ z => z
  | .chan r => decide (r = none)
  | .func r => decide (r = none)
  | .ptr r => decide (r = none)
  | .unsafePointer addr => decide (addr = 0)
  | .struct _ z => z

/-- The element count of a sequence value, as the specification measures it. -/
def Value.elementCount : Value → Option Nat
  | .slice none => some 0
  | .slice (some k) => some k
  | .map none => some 0
  | .map (some k) => some k
  | .array k _ _ => some k
  | _ => none

/-! ## Integer literals, as the specification reads them -/

/-- The value of a digit character, by ranges: the decimal digits, then the
letters of either case counting from ten. -/
def charDigit (c : Char) : Option Nat :=
  if '0'.toNat ≤ c.toNat ∧ c.toNat ≤ '9'.toNat then some (c.toNat - '0'.toNat)
  else if 'a'.toNat ≤ c.toNat ∧ c.toNat ≤ 'z'.toNat then some (c.toNat - 'a'.toNat + 10)
  else if 'A'.toNat ≤ c.toNat ∧ c.toNat ≤ 'Z'.toNat then some (c.toNat - 'A'.toNat + 10)
  else none

/-- Whether a character is a digit of base `b`. -/
def isDigit (b : Nat) (c : Char) : Bool :=
  match charDigit c with
  | some d => decide (d < b)
  | none => false

/-- The digits of a literal, `digit { [ "_" ] digit }`: digits of base `b`,
any two neighbours separated by at most one underscore. -/
inductive DigitSeq (b : Nat) : List Char → Prop
  | one (c : Char) : isDigit b c = true → DigitSeq b [c]
  | cons (c : Char) (cs : List Char) : isDigit b c = true → DigitSeq b cs → DigitSeq b (c :: cs)
  | sep (c : Char) (cs : List Char) :
      isDigit b c = true → DigitSeq b cs → DigitSeq b (c :: '_' :: cs)

/-- The digits after a base marker, `[ "_" ] digits`. -/
def SepDigits (b : Nat) (cs : List Char) : Prop :=
  DigitSeq b cs ∨ ∃ t, cs = '_' :: t ∧ DigitSeq b t

/-- The number that digits denote in base `b`, read from the accumulator `n`
on, underscores skipped. -/
def digitsValueFrom (b : Nat) (n : Nat) (cs : List Char) : Nat :=
  cs.foldl (fun acc c => if c = '_' then acc else acc * b + (charDigit c).getD 0) n

/-- The number that digits denote in base `b`. -/
def digitsValue (b : Nat) (cs : List Char) : Nat := digitsValueFrom b 0 cs

/-- The base a marker letter announces: `b` 2, `o` 8, `x` 16, in either case. -/
def markerBase (c : Char) : Option Nat :=
  if c = 'b' ∨ c = 'B' then some 2
  else if c = 'o' ∨ c = 'O' then some 8
  else if c = 'x' ∨ c = 'X' then some 16
  else none

/-- An unsigned integer literal and the number it denotes: `0`; a decimal
literal, which does not start with `0`; `0b`, `0o` or `0x` followed by digits
of base 2, 8 or 16; `0` followed by octal digits. -/
inductive UintLiteral : List Char → Nat → Prop
  | zero : UintLiteral ['0'] 0
  | decimal (cs : List Char) :
      DigitSeq 10 cs → cs.head? ≠ some '0' → UintLiteral cs (digitsValue 10 cs)
  | marked (m : Char) (b : Nat) (cs : List Char) :
      markerBase m = some b → SepDigits b cs → UintLiteral ('0' :: m :: cs) (digitsValue b cs)
  | octal (cs : List Char) : SepDigits 8 cs → UintLiteral ('0' :: cs) (digitsValue 8 cs)

/-- A signed integer literal and the number it denotes: an unsigned literal
with an optional sign. -/
inductive IntLiteral : List Char → Int → Prop
  | plain (cs : List Char) (n : Nat) : UintLiteral cs n → IntLiteral cs n
  | plus (cs : List Char) (n : Nat) : UintLiteral cs n → IntLiteral ('+' :: cs) n
  | minus (cs : List Char) (n : Nat) : UintLiteral cs n → IntLiteral ('-' :: cs) (-(n : Int))

/-- Every one of the seven comparison predicates raises the fault `e` on
`(v, p)`. -/
def AllFault (ParseFloat : String → Option F64) (v : Value) (p : String) (e : Fault) : Prop :=
  length ParseFloat v p = .error e ∧ min ParseFloat v p = .error e ∧
  max ParseFloat v p = .error e ∧ gte ParseFloat v p = .error e ∧
  lte ParseFloat v p = .error e ∧ lt ParseFloat v p = .error e ∧
  gt ParseFloat v p = .error e

/-- Every one of the seven comparison predicates returns a boolean on
`(v, p)`. -/
def AllReturn (ParseFloat : String → Option F64) (v : Value) (p : String) : Prop :=
  (∃ b, length ParseFloat v p = .ok b) ∧ (∃ b, min ParseFloat v p = .ok b) ∧
  (∃ b, max ParseFloat v p = .ok b) ∧ (∃ b, gte ParseFloat v p = .ok b) ∧
  (∃ b, lte ParseFloat v p = .ok b) ∧ (∃ b, lt ParseFloat v p = .ok b) ∧
  (∃ b, gt ParseFloat v p = .ok b)

/-- The outcomes of the eleven format matchers on `(v, p)`, in the order
alpha, alphanum, numeric, number, hexadecimal, hexcolor, rgb, rgba, hsl,
hsla, email. -/
def matcherOutcomes (R : Patterns) (v : Value) (p : String) : List (Except Fault Bool) :=
  [alpha R v p, alphanum R v p, numeric R v p, number R v p, hexadecimal R v p,
   hexcolor R v p, rgb R v p, rgba R v p, hsl R v p, hsla R v p, email R v p]

/-- The results of the eleven patterns on a text, in the same order. -/
def patternResults (R : Patterns) (s : String) : List (Except Fault Bool) :=
  [.ok (R.alphaRegex s), .ok (R.alphaNumericRegex s), .ok (R.numericRegex s),
   .ok (R.numberRegex s), .ok (R.hexadecimalRegex s), .ok (R.hexcolorRegex s),
   .ok (R.rgbRegex s), .ok (R.rgbaRegex s), .ok (R.hslRegex s), .ok (R.hslaRegex s),
   .ok (R.emailRegex s)]

/-- The nineteen rule names of the registry. -/
def ruleNames : List String :=
  ["required", "len", "min", "max", "lt", "lte", "gt", "gte", "alpha", "alphanum", "numeric",
   "number", "hexadecimal", "hexcolor", "rgb", "rgba", "hsl", "hsla", "email"]

end Validator

/-! # Theorems -/

namespace Validator

/-! ## The integer parser against the literal syntax -/

theorem lower_ge_of_ge (n : Nat) (h : 128 ≤ n) : 128 ≤ lower n := by
  by_contra hlt
  have hlt : n ||| 32 < 2 ^ 7 := by
    simp only [lower] at hlt
    have : 'x'.toNat - 'X'.toNat = 32 := by decide
    rw [this] at hlt
    omega
  obtain ⟨i, hi, hb⟩ := Nat.ge_two_pow_implies_high_bit_true (x := n) (n := 7) (by omega)
  have h2 : (n ||| 32) < 2 ^ i := lt_of_lt_of_le hlt (Nat.pow_le_pow_right (by omega) hi)
  have h3 := Nat.testBit_lt_two_pow h2
  simp [Nat.testBit_or, hb] at h3

theorem lower_small : ∀ n < 128,
    (lower n = 98 ↔ (n = 98 ∨ n = 66)) ∧ (lower n = 111 ↔ (n = 111 ∨ n = 79)) ∧
    (lower n = 120 ↔ (n = 120 ∨ n = 88)) ∧
    ((97 ≤ lower n ∧ lower n ≤ 122) ↔ ((97 ≤ n ∧ n ≤ 122) ∨ (65 ≤ n ∧ n ≤ 90))) ∧
    ((97 ≤ n ∧ n ≤ 122) → lower n = n) ∧ ((65 ≤ n ∧ n ≤ 90) → lower n = n + 32) := by
  decide

theorem digitVal_eq_charDigit (c : Char) : digitVal c = charDigit c := by
  have e0 : '0'.toNat = 48 := by decide
  have e9 : '9'.toNat = 57 := by decide
  have ea : 'a'.toNat = 97 := by decide
  have ez : 'z'.toNat = 122 := by decide
  have eA : 'A'.toNat = 65 := by decide
  have eZ : 'Z'.toNat = 90 := by decide
  simp only [digitVal, charDigit, e0, e9, ea, ez, eA, eZ]
  generalize c.toNat = n
  by_cases hn : n < 128
  · obtain ⟨-, -, -, h4, h5, h6⟩ := lower_small n hn
    by_cases h1 : 48 ≤ n ∧ n ≤ 57
    · simp [h1]
    · by_cases h2 : 97 ≤ n ∧ n ≤ 122
      · have h3 : 97 ≤ lower n ∧ lower n ≤ 122 := h4.mpr (Or.inl h2)
        simp [h1, h2, h3, h5 h2]
      · by_cases h7 : 65 ≤ n ∧ n ≤ 90
        · have h3 : 97 ≤ lower n ∧ lower n ≤ 122 := h4.mpr (Or.inr h7)
          rw [if_neg h1, if_neg h1, if_pos h3, if_neg h2, if_pos h7, h6 h7]
          exact congrArg some (by omega)
        · have h3 : ¬ (97 ≤ lower n ∧ lower n ≤ 122) := fun h => by
            rcases h4.mp h with h | h
            · exact h2 h
            · exact h7 h
          rw [if_neg h1, if_neg h1, if_neg h3, if_neg h2, if_neg h7]
  · have hl := lower_ge_of_ge n (by omega)
    have h1 : ¬ (48 ≤ n ∧ n ≤ 57) := by omega
    have h2 : ¬ (97 ≤ n ∧ n ≤ 122) := by omega
    have h3 : ¬ (97 ≤ lower n ∧ lower n ≤ 122) := by omega
    have h7 : ¬ (65 ≤ n ∧ n ≤ 90) := by omega
    rw [if_neg h1, if_neg h1, if_neg h3, if_neg h2, if_neg h7]

theorem isDigit_iff (b : Nat) (c : Char) :
    isDigit b c = true ↔ ∃ d, digitVal c = some d ∧ d < b := by
  rw [digitVal_eq_charDigit]
  unfold isDigit
  cases charDigit c <;> simp

theorem isDigit_underscore (b : Nat) : isDigit b '_' = false := by
  have : charDigit '_' = none := by decide
  simp [isDigit, this]

theorem charDigit_le (c : Char) (d : Nat) (h : charDigit c = some d) : d ≤ 35 := by
  have e0 : '0'.toNat = 48 := by decide
  have e9 : '9'.toNat = 57 := by decide
  have ea : 'a'.toNat = 97 := by decide
  have ez : 'z'.toNat = 122 := by decide
  have eA : 'A'.toNat = 65 := by decide
  have eZ : 'Z'.toNat = 90 := by decide
  simp only [charDigit, e0, e9, ea, ez, eA, eZ] at h
  split_ifs at h <;> simp at h <;> omega

theorem digitsValueFrom_nil (b n : Nat) : digitsValueFrom b n [] = n := rfl

theorem digitsValueFrom_sep (b n : Nat) (cs : List Char) :
    digitsValueFrom b n ('_' :: cs) = digitsValueFrom b n cs := by
  simp [digitsValueFrom]

theorem digitsValueFrom_digit (b n : Nat) (c : Char) (cs : List Char) (d : Nat)
    (hc : c ≠ '_') (hd : charDigit c = some d) :
    digitsValueFrom b n (c :: cs) = digitsValueFrom b (n * b + d) cs := by
  simp [digitsValueFrom, hc, hd]

theorem le_digitsValueFrom (b : Nat) (hb : 1 ≤ b) (cs : List Char) :
    ∀ n, n ≤ digitsValueFrom b n cs := by
  induction cs with
  | nil => intro n; exact le_refl n
  | cons c cs ih =>
    intro n
    by_cases hc : c = '_'
    · subst hc
      rw [digitsValueFrom_sep]
      exact ih n
    · have hstep : digitsValueFrom b n (c :: cs)
          = digitsValueFrom b (n * b + (charDigit c).getD 0) cs := by
        simp [digitsValueFrom, hc]
      rw [hstep]
      have h1 : n ≤ n * b := Nat.le_mul_of_pos_right n hb
      exact le_trans (by omega) (ih _)

/-- One round of the digit loop on a digit: it goes on exactly when the new
value still fits in 64 bits. -/
theorem digitLoop_digit (b : Nat) (hb : 1 ≤ b) (c : Char) (cs : List Char) (n : Nat) (us : Bool)
    (d : Nat) (hc : c ≠ '_') (hd : digitVal c = some d) (hdb : d < b)
    (hd35 : d ≤ 35) :
    digitLoop b (maxUint64 / b + 1) (2 ^ 64 - 1) (c :: cs) n us =
      if n * b + d < 2 ^ 64 then digitLoop b (maxUint64 / b + 1) (2 ^ 64 - 1) cs (n * b + d) us
      else .error .range := by
  rw [digitLoop, if_neg hc]
  simp only [hd]
  rw [if_neg (by omega)]
  have hcut : n ≥ maxUint64 / b + 1 ↔ ¬ n * b ≤ maxUint64 := by
    rw [← Nat.le_div_iff_mul_le hb]
    omega
  have hmax : maxUint64 = 2 ^ 64 - 1 := rfl
  by_cases hfit : n * b + d < 2 ^ 64
  · have h1 : ¬ n ≥ maxUint64 / b + 1 := by
      rw [hcut, hmax]
      omega
    rw [if_neg h1, if_pos hfit]
    have hm : n * b % 2 ^ 64 = n * b := Nat.mod_eq_of_lt (by omega)
    have hm1 : (n * b + d) % 2 ^ 64 = n * b + d := Nat.mod_eq_of_lt hfit
    simp only [hm, hm1]
    rw [if_neg (by omega)]
  · rw [if_neg hfit]
    by_cases h1 : n ≥ maxUint64 / b + 1
    · rw [if_pos h1]
    · rw [if_neg h1]
      have h2 : n * b ≤ maxUint64 := by
        by_contra h3
        exact h1 (hcut.mpr h3)
      rw [hmax] at h2
      have hm : n * b % 2 ^ 64 = n * b := Nat.mod_eq_of_lt (by omega)
      have hm1 : (n * b + d) % 2 ^ 64 = n * b + d - 2 ^ 64 := by
        rw [Nat.mod_eq_sub_mod (by omega)]
        exact Nat.mod_eq_of_lt (by omega)
      simp only [hm, hm1]
      rw [if_pos (by omega)]

/-- The digit loop succeeds on digits and underscores whose value fits in 64
bits, and returns that value. -/
theorem digitLoop_of_valid (b : Nat) (hb : 1 ≤ b) (cs : List Char) :
    ∀ (n : Nat) (us : Bool), (∀ c ∈ cs, c = '_' ∨ isDigit b c = true) →
      digitsValueFrom b n cs < 2 ^ 64 →
      digitLoop b (maxUint64 / b + 1) (2 ^ 64 - 1) cs n us =
        .ok (digitsValueFrom b n cs, us || decide ('_' ∈ cs)) := by
  induction cs with
  | nil => intro n us _ _; simp [digitLoop, digitsValueFrom]
  | cons c cs ih =>
    intro n us hv hr
    have hvt : ∀ x ∈ cs, x = '_' ∨ isDigit b x = true :=
      fun x hx => hv x (List.mem_cons_of_mem c hx)
    by_cases hc : c = '_'
    · subst hc
      rw [digitsValueFrom_sep] at hr ⊢
      rw [digitLoop, if_pos rfl, ih n true hvt hr]
      simp
    · have hdig : isDigit b c = true := by
        rcases hv c (List.mem_cons_self c cs) with h | h
        · exact absurd h hc
        · exact h
      obtain ⟨d, hd, hdb⟩ := (isDigit_iff b c).mp hdig
      have hd2 : charDigit c = some d := by rw [← digitVal_eq_charDigit]; exact hd
      rw [digitsValueFrom_digit b n c cs d hc hd2] at hr ⊢
      have hfit : n * b + d < 2 ^ 64 := lt_of_le_of_lt (le_digitsValueFrom b hb cs _) hr
      rw [digitLoop_digit b hb c cs n us d hc hd hdb (charDigit_le c d hd2), if_pos hfit,
        ih (n * b + d) us hvt hr]
      have hne : ¬ ('_' = c) := fun h => hc h.symm
      simp [hne]

/-- When the digit loop succeeds, it has read digits and underscores only,
and returns their value, which fits in 64 bits. -/
theorem digitLoop_ok_inv (b : Nat) (hb : 1 ≤ b) (cs : List Char) :
    ∀ (n : Nat) (us : Bool) (v : Nat) (u : Bool),
      digitLoop b (maxUint64 / b + 1) (2 ^ 64 - 1) cs n us = .ok (v, u) → n < 2 ^ 64 →
      (∀ c ∈ cs, c = '_' ∨ isDigit b c = true) ∧ v = digitsValueFrom b n cs ∧ v < 2 ^ 64 ∧
        u = (us || decide ('_' ∈ cs)) := by
  induction cs with
  | nil =>
    intro n us v u h hn
    simp only [digitLoop, Except.ok.injEq, Prod.mk.injEq] at h
    obtain ⟨rfl, rfl⟩ := h
    exact ⟨by simp, rfl, hn, by simp⟩
  | cons c cs ih =>
    intro n us v u h hn
    by_cases hc : c = '_'
    · subst hc
      rw [digitLoop, if_pos rfl] at h
      obtain ⟨h1, h2, h3, h4⟩ := ih n true v u h hn
      refine ⟨?_, ?_, h3, ?_⟩
      · intro x hx
        rcases List.mem_cons.mp hx with rfl | hx
        · exact Or.inl rfl
        · exact h1 x hx
      · rw [digitsValueFrom_sep]; exact h2
      · simp [h4]
    · cases hd : digitVal c with
      | none =>
        rw [digitLoop, if_neg hc] at h
        simp [hd] at h
      | some d =>
        have hd2 : charDigit c = some d := by rw [← digitVal_eq_charDigit]; exact hd
        by_cases hdb : d < b
        · rw [digitLoop_digit b hb c cs n us d hc hd hdb (charDigit_le c d hd2)] at h
          by_cases hfit : n * b + d < 2 ^ 64
          · rw [if_pos hfit] at h
            obtain ⟨h1, h2, h3, h4⟩ := ih (n * b + d) us v u h hfit
            refine ⟨?_, ?_, h3, ?_⟩
            · intro x hx
              rcases List.mem_cons.mp hx with rfl | hx
              · exact Or.inr ((isDigit_iff b x).mpr ⟨d, hd, hdb⟩)
              · exact h1 x hx
            · rw [digitsValueFrom_digit b n c cs d hc hd2]; exact h2
            · have hne : ¬ ('_' = c) := fun h => hc h.symm
              simp [h4, hne]
          · rw [if_neg hfit] at h
            simp at h
        · rw [digitLoop, if_neg hc] at h
          simp only [hd] at h
          rw [if_pos (by omega)] at h
          simp at h

theorem digitSeq_cons_iff (b : Nat) (c : Char) (t : List Char) :
    DigitSeq b (c :: t) ↔ isDigit b c = true ∧ (t = [] ∨ SepDigits b t) := by
  constructor
  · intro h
    cases h with
    | one _ hc => exact ⟨hc, Or.inl rfl⟩
    | cons _ _ hc ht => exact ⟨hc, Or.inr (Or.inl ht)⟩
    | sep _ cs hc ht => exact ⟨hc, Or.inr (Or.inr ⟨cs, rfl, ht⟩)⟩
  · rintro ⟨hc, rfl | ht | ⟨cs, rfl, ht⟩⟩
    · exact DigitSeq.one c hc
    · exact DigitSeq.cons c t hc ht
    · exact DigitSeq.sep c cs hc ht

theorem not_digitSeq_nil (b : Nat) : ¬ DigitSeq b [] := by
  intro h
  cases h

theorem not_digitSeq_underscore (b : Nat) (t : List Char) : ¬ DigitSeq b ('_' :: t) := by
  intro h
  have := ((digitSeq_cons_iff b '_' t).mp h).1
  rw [isDigit_underscore] at this
  exact Bool.noConfusion this

theorem sepDigits_underscore_iff (b : Nat) (t : List Char) :
    SepDigits b ('_' :: t) ↔ DigitSeq b t := by
  constructor
  · rintro (h | ⟨t', ht, h⟩)
    · exact absurd h (not_digitSeq_underscore b t)
    · cases ht
      exact h
  · intro h
    exact Or.inr ⟨t, rfl, h⟩

theorem sepDigits_digit_iff (b : Nat) (c : Char) (t : List Char) (hc : c ≠ '_') :
    SepDigits b (c :: t) ↔ DigitSeq b (c :: t) := by
  constructor
  · rintro (h | ⟨t', ht, _⟩)
    · exact h
    · cases ht
      exact absurd rfl hc
  · intro h
    exact Or.inl h

theorem not_sepDigits_nil (b : Nat) : ¬ SepDigits b [] := by
  rintro (h | ⟨t, ht, _⟩)
  · exact not_digitSeq_nil b h
  · cases ht

theorem digitSeq_valid (b : Nat) (cs : List Char) (h : DigitSeq b cs) :
    ∀ c ∈ cs, c = '_' ∨ isDigit b c = true := by
  induction h with
  | one c hc =>
    intro x hx
    rw [List.mem_singleton] at hx
    subst hx
    exact Or.inr hc
  | cons c cs hc _ ih =>
    intro x hx
    rcases List.mem_cons.mp hx with rfl | hx
    · exact Or.inr hc
    · exact ih x hx
  | sep c cs hc _ ih =>
    intro x hx
    rcases List.mem_cons.mp hx with rfl | hx
    · exact Or.inr hc
    · rcases List.mem_cons.mp hx with rfl | hx
      · exact Or.inl rfl
      · exact ih x hx

theorem sepDigits_valid (b : Nat) (cs : List Char) (h : SepDigits b cs) :
    ∀ c ∈ cs, c = '_' ∨ isDigit b c = true := by
  rcases h with h | ⟨t, rfl, h⟩
  · exact digitSeq_valid b cs h
  · intro x hx
    rcases List.mem_cons.mp hx with rfl | hx
    · exact Or.inl rfl
    · exact digitSeq_valid b t h x hx

theorem digitSeq_of_digits (b : Nat) (cs : List Char) (hne : cs ≠ [])
    (h : ∀ c ∈ cs, isDigit b c = true) : DigitSeq b cs := by
  induction cs with
  | nil => exact absurd rfl hne
  | cons c t ih =>
    have hc := h c (List.mem_cons_self c t)
    by_cases ht : t = []
    · subst ht
      exact DigitSeq.one c hc
    · exact DigitSeq.cons c t hc (ih ht (fun x hx => h x (List.mem_cons_of_mem c hx)))

/-- The digit test of `underscoreOK` accepts the digits of the base being
read: decimal digits for a base up to ten, hexadecimal digits for base 16. -/
theorem scanTest_of_isDigit (hex : Bool) (b : Nat) (c : Char)
    (hsb : (hex = false ∧ b ≤ 10) ∨ (hex = true ∧ b = 16)) (hc : isDigit b c = true) :
    ('0'.toNat ≤ c.toNat ∧ c.toNat ≤ '9'.toNat) ∨
      (hex = true ∧ 'a'.toNat ≤ lower c.toNat ∧ lower c.toNat ≤ 'f'.toNat) := by
  have e0 : '0'.toNat = 48 := by decide
  have e9 : '9'.toNat = 57 := by decide
  have ea : 'a'.toNat = 97 := by decide
  have ef : 'f'.toNat = 102 := by decide
  have ez : 'z'.toNat = 122 := by decide
  have eA : 'A'.toNat = 65 := by decide
  have eZ : 'Z'.toNat = 90 := by decide
  unfold isDigit at hc
  cases hd : charDigit c with
  | none => rw [hd] at hc; exact Bool.noConfusion hc
  | some d =>
    rw [hd] at hc
    have hdb : d < b := by simpa using hc
    simp only [charDigit, e0, e9, ea, ez, eA, eZ] at hd
    rw [e0, e9, ea, ef]
    by_cases h1 : 48 ≤ c.toNat ∧ c.toNat ≤ 57
    · exact Or.inl h1
    · rw [if_neg h1] at hd
      have hlt : c.toNat < 128 := by
        by_contra hge
        rw [if_neg (by omega), if_neg (by omega)] at hd
        exact Option.noConfusion hd
      obtain ⟨-, -, -, -, h5, h6⟩ := lower_small c.toNat hlt
      by_cases h2 : 97 ≤ c.toNat ∧ c.toNat ≤ 122
      · rw [if_pos h2] at hd
        have hd' : c.toNat - 97 + 10 = d := Option.some.inj hd
        rcases hsb with ⟨_, hb⟩ | ⟨hh, hb⟩
        · omega
        · exact Or.inr ⟨hh, by rw [h5 h2]; omega, by rw [h5 h2]; omega⟩
      · rw [if_neg h2] at hd
        by_cases h7 : 65 ≤ c.toNat ∧ c.toNat ≤ 90
        · rw [if_pos h7] at hd
          have hd' : c.toNat - 65 + 10 = d := Option.some.inj hd
          rcases hsb with ⟨_, hb⟩ | ⟨hh, hb⟩
          · omega
          · exact Or.inr ⟨hh, by rw [h6 h7]; omega, by rw [h6 h7]; omega⟩
        · rw [if_neg h7] at hd
          exact Option.noConfusion hd

theorem scanTest_underscore (hex : Bool) :
    ¬ (('0'.toNat ≤ '_'.toNat ∧ '_'.toNat ≤ '9'.toNat) ∨
      (hex = true ∧ 'a'.toNat ≤ lower '_'.toNat ∧ lower '_'.toNat ≤ 'f'.toNat)) := by
  cases hex <;> decide

/-- On digits and underscores, the scan of `underscoreOK` accepts exactly
the digit sequences of the literal syntax; what it accepts at the start
depends on what came before. -/
theorem underscoreScan_iff (hex : Bool) (b : Nat)
    (hsb : (hex = false ∧ b ≤ 10) ∨ (hex = true ∧ b = 16)) (cs : List Char) :
    (∀ c ∈ cs, c = '_' ∨ isDigit b c = true) →
    ((underscoreScan hex cs .underscore = true ↔ DigitSeq b cs) ∧
     (underscoreScan hex cs .digit = true ↔ (cs = [] ∨ SepDigits b cs)) ∧
     (underscoreScan hex cs .start = true ↔ (cs = [] ∨ DigitSeq b cs))) := by
  induction cs with
  | nil =>
    intro _
    refine ⟨?_, ?_, ?_⟩
    · simp [underscoreScan, not_digitSeq_nil]
    · simp [underscoreScan]
    · simp [underscoreScan]
  | cons c t ih =>
    intro hv
    obtain ⟨ihU, ihD, _⟩ := ih (fun x hx => hv x (List.mem_cons_of_mem c hx))
    by_cases hc : c = '_'
    · subst hc
      have hstep : ∀ saw, underscoreScan hex ('_' :: t) saw =
          if saw ≠ .digit then false else underscoreScan hex t .underscore := by
        intro saw
        rw [underscoreScan, if_neg (scanTest_underscore hex), if_pos rfl]
      refine ⟨?_, ?_, ?_⟩
      · rw [hstep]
        simp [not_digitSeq_underscore]
      · rw [hstep]
        simp [sepDigits_underscore_iff, ihU]
      · rw [hstep]
        simp [not_digitSeq_underscore]
    · have hdig : isDigit b c = true := by
        rcases hv c (List.mem_cons_self c t) with h | h
        · exact absurd h hc
        · exact h
      have hstep : ∀ saw, underscoreScan hex (c :: t) saw = underscoreScan hex t .digit := by
        intro saw
        rw [underscoreScan, if_pos (scanTest_of_isDigit hex b c hsb hdig)]
      have hseq : DigitSeq b (c :: t) ↔ (t = [] ∨ SepDigits b t) := by
        rw [digitSeq_cons_iff]
        simp [hdig]
      refine ⟨?_, ?_, ?_⟩
      · rw [hstep, ihD, hseq]
      · rw [hstep, ihD, sepDigits_digit_iff b c t hc, hseq]
        simp
      · rw [hstep, ihD, hseq]
        simp

theorem char_eq_iff (c k : Char) : c = k ↔ c.toNat = k.toNat := by
  constructor
  · intro h; rw [h]
  · intro h
    rw [← Char.ofNat_toNat c, ← Char.ofNat_toNat k, h]

theorem byteAt_zero (c : Char) (t : List Char) : byteAt (c :: t) 0 = c.toNat := by
  simp [byteAt]

theorem byteAt_one (c m : Char) (t : List Char) : byteAt (c :: m :: t) 1 = m.toNat := by
  simp [byteAt]

/-- The three marker tests of `ParseUint`, on `lower(s[1])`, pick the marker
letters in either case. -/
theorem marker_lower (m : Char) :
    (lower m.toNat = 'b'.toNat ↔ markerBase m = some 2) ∧
    (lower m.toNat = 'o'.toNat ↔ markerBase m = some 8) ∧
    (lower m.toNat = 'x'.toNat ↔ markerBase m = some 16) := by
  have eb : 'b'.toNat = 98 := by decide
  have eB : 'B'.toNat = 66 := by decide
  have eo : 'o'.toNat = 111 := by decide
  have eO : 'O'.toNat = 79 := by decide
  have ex : 'x'.toNat = 120 := by decide
  have eX : 'X'.toNat = 88 := by decide
  simp only [markerBase, char_eq_iff m, eb, eB, eo, eO, ex, eX]
  by_cases hn : m.toNat < 128
  · obtain ⟨h1, h2, h3, -, -, -⟩ := lower_small m.toNat hn
    rw [h1, h2, h3]
    refine ⟨?_, ?_, ?_⟩
    · constructor
      · intro h; rw [if_pos h]
      · intro h
        split_ifs at h with h4 h5 h6
        · exact h4
        · simp at h
        · simp at h
    · constructor
      · intro h
        rw [if_neg (by omega), if_pos h]
      · intro h
        split_ifs at h with h4 h5 h6
        · simp at h
        · exact h5
        · simp at h
    · constructor
      · intro h
        rw [if_neg (by omega), if_neg (by omega), if_pos h]
      · intro h
        split_ifs at h with h4 h5 h6
        · simp at h
        · simp at h
        · exact h6
  · have hl := lower_ge_of_ge m.toNat (by omega)
    rw [if_neg (by omega), if_neg (by omega), if_neg (by omega)]
    refine ⟨?_, ?_, ?_⟩ <;> constructor <;> intro h
    · omega
    · simp at h
    · omega
    · simp at h
    · omega
    · simp at h

theorem markerBase_cases (m : Char) (b : Nat) (h : markerBase m = some b) :
    b = 2 ∨ b = 8 ∨ b = 16 := by
  unfold markerBase at h
  split_ifs at h <;> simp at h <;> omega

/-- A digit of a base up to ten, or an underscore, is not a marker letter. -/
theorem markerBase_none_of_valid (b : Nat) (hb : b ≤ 10) (c : Char)
    (h : c = '_' ∨ isDigit b c = true) : markerBase c = none := by
  rcases h with rfl | h
  · decide
  · have e0 : '0'.toNat = 48 := by decide
    have e9 : '9'.toNat = 57 := by decide
    have := scanTest_of_isDigit false b c (Or.inl ⟨rfl, hb⟩) h
    simp only [e0, e9] at this
    rcases this with h1 | ⟨h2, _⟩
    · have eb : 'b'.toNat = 98 := by decide
      have eB : 'B'.toNat = 66 := by decide
      have eo : 'o'.toNat = 111 := by decide
      have eO : 'O'.toNat = 79 := by decide
      have ex : 'x'.toNat = 120 := by decide
      have eX : 'X'.toNat = 88 := by decide
      simp only [markerBase, char_eq_iff c, eb, eB, eo, eO, ex, eX]
      rw [if_neg (by omega), if_neg (by omega), if_neg (by omega)]
    · exact Bool.noConfusion h2

theorem isDigit_ne_sign (b : Nat) (c : Char) (h : c = '_' ∨ isDigit b c = true) :
    c.toNat ≠ '-'.toNat ∧ c.toNat ≠ '+'.toNat := by
  rcases h with rfl | h
  · decide
  · unfold isDigit at h
    cases hd : charDigit c with
    | none => rw [hd] at h; exact Bool.noConfusion h
    | some d =>
      have e0 : '0'.toNat = 48 := by decide
      have e9 : '9'.toNat = 57 := by decide
      have ea : 'a'.toNat = 97 := by decide
      have ez : 'z'.toNat = 122 := by decide
      have eA : 'A'.toNat = 65 := by decide
      have eZ : 'Z'.toNat = 90 := by decide
      have em : '-'.toNat = 45 := by decide
      have ep : '+'.toNat = 43 := by decide
      simp only [charDigit, e0, e9, ea, ez, eA, eZ] at hd
      rw [em, ep]
      split_ifs at hd <;> omega

/-- Base selection on a string that does not start with `0`. -/
theorem pickBase_decimal (c : Char) (t : List Char) (hc : c ≠ '0') :
    pickBase (c :: t) = (10, c :: t) := by
  have h : ¬ byteAt (c :: t) 0 = '0'.toNat := by
    rw [byteAt_zero]
    exact fun h => hc ((char_eq_iff c '0').mpr h)
  rw [pickBase, if_neg h]

/-- Base selection on `0`, a marker letter and at least one more character. -/
theorem pickBase_marked (m : Char) (b : Nat) (c : Char) (t : List Char)
    (hm : markerBase m = some b) : pickBase ('0' :: m :: c :: t) = (b, c :: t) := by
  obtain ⟨h1, h2, h3⟩ := marker_lower m
  have hlen : ('0' :: m :: c :: t).length ≥ 3 := by simp
  rw [pickBase, if_pos (byteAt_zero '0' _), byteAt_one]
  rcases markerBase_cases m b hm with rfl | rfl | rfl
  · rw [if_pos ⟨hlen, h1.mpr hm⟩]; rfl
  · have n1 : ¬ lower m.toNat = 'b'.toNat := fun h => by
      have := h1.mp h; rw [hm] at this; simp at this
    rw [if_neg (fun h => n1 h.2), if_pos ⟨hlen, h2.mpr hm⟩]; rfl
  · have n1 : ¬ lower m.toNat = 'b'.toNat := fun h => by
      have := h1.mp h; rw [hm] at this; simp at this
    have n2 : ¬ lower m.toNat = 'o'.toNat := fun h => by
      have := h2.mp h; rw [hm] at this; simp at this
    rw [if_neg (fun h => n1 h.2), if_neg (fun h => n2 h.2), if_pos ⟨hlen, h3.mpr hm⟩]; rfl

/-- Base selection on `0` followed by no marker with digits: octal. -/
theorem pickBase_octal (t : List Char)
    (h : t.length < 2 ∨ ∃ m r, t = m :: r ∧ markerBase m = none) :
    pickBase ('0' :: t) = (8, t) := by
  rw [pickBase, if_pos (byteAt_zero '0' _)]
  rcases h with h | ⟨m, r, rfl, hm⟩
  · have hlen : ¬ ('0' :: t).length ≥ 3 := by simp; omega
    rw [if_neg (fun h => hlen h.1), if_neg (fun h => hlen h.1), if_neg (fun h => hlen h.1)]
    rfl
  · obtain ⟨h1, h2, h3⟩ := marker_lower m
    rw [byteAt_one]
    have n1 : ¬ lower m.toNat = 'b'.toNat := fun h => by
      have := h1.mp h; rw [hm] at this; simp at this
    have n2 : ¬ lower m.toNat = 'o'.toNat := fun h => by
      have := h2.mp h; rw [hm] at this; simp at this
    have n3 : ¬ lower m.toNat = 'x'.toNat := fun h => by
      have := h3.mp h; rw [hm] at this; simp at this
    rw [if_neg (fun h => n1 h.2), if_neg (fun h => n2 h.2), if_neg (fun h => n3 h.2)]
    rfl

/-- `underscoreOK` on a string that starts with a digit other than `0`, or
with an underscore: the scan runs from the beginning. -/
theorem underscoreOK_decimal (c : Char) (t : List Char) (hc : c ≠ '0')
    (hv : c = '_' ∨ isDigit 10 c = true) :
    underscoreOK (c :: t) = underscoreScan false (c :: t) .start := by
  obtain ⟨hm, hp⟩ := isDigit_ne_sign 10 c hv
  have h0 : ¬ byteAt (c :: t) 0 = '0'.toNat := by
    rw [byteAt_zero]
    exact fun h => hc ((char_eq_iff c '0').mpr h)
  have hs : ¬ ((c :: t).length ≥ 1 ∧
      (byteAt (c :: t) 0 = '-'.toNat ∨ byteAt (c :: t) 0 = '+'.toNat)) := by
    rw [byteAt_zero]
    rintro ⟨_, h | h⟩
    · exact hm h
    · exact hp h
  simp only [underscoreOK]
  rw [if_neg hs, if_neg (fun h => h0 h.2.1)]

theorem zero_not_sign (t : List Char) :
    ¬ (('0' :: t).length ≥ 1 ∧
      (byteAt ('0' :: t) 0 = '-'.toNat ∨ byteAt ('0' :: t) 0 = '+'.toNat)) := by
  rw [byteAt_zero]
  rintro ⟨_, h | h⟩
  · exact absurd h (by decide)
  · exact absurd h (by decide)

/-- `underscoreOK` on `0`, a marker letter and more: the scan runs after the
marker, from the state "digit seen". -/
theorem underscoreOK_marked (m : Char) (b : Nat) (t : List Char) (hm : markerBase m = some b) :
    underscoreOK ('0' :: m :: t) = underscoreScan (decide (b = 16)) t .digit := by
  obtain ⟨h1, h2, h3⟩ := marker_lower m
  have hmark : lower m.toNat = 'b'.toNat ∨ lower m.toNat = 'o'.toNat ∨
      lower m.toNat = 'x'.toNat := by
    rcases markerBase_cases m b hm with rfl | rfl | rfl
    · exact Or.inl (h1.mpr hm)
    · exact Or.inr (Or.inl (h2.mpr hm))
    · exact Or.inr (Or.inr (h3.mpr hm))
  have hx : decide (lower m.toNat = 'x'.toNat) = decide (b = 16) := by
    rcases markerBase_cases m b hm with rfl | rfl | rfl
    · have : ¬ lower m.toNat = 'x'.toNat := fun h => by
        have := h3.mp h; rw [hm] at this; simp at this
      rw [decide_eq_false this]; rfl
    · have : ¬ lower m.toNat = 'x'.toNat := fun h => by
        have := h3.mp h; rw [hm] at this; simp at this
      rw [decide_eq_false this]; rfl
    · rw [decide_eq_true (h3.mpr hm)]; rfl
  simp only [underscoreOK]
  rw [if_neg (zero_not_sign _), byteAt_one, if_pos ⟨by simp, byteAt_zero '0' _, hmark⟩, hx]
  rfl

/-- `underscoreOK` on `0` followed by no marker letter: the scan, having
read the `0`, goes on from the state "digit seen". -/
theorem underscoreOK_octal (t : List Char)
    (h : t = [] ∨ ∃ m r, t = m :: r ∧ markerBase m = none) :
    underscoreOK ('0' :: t) = underscoreScan false t .digit := by
  have hstart : underscoreScan false ('0' :: t) .start = underscoreScan false t .digit := by
    rw [underscoreScan, if_pos (Or.inl (by decide))]
  simp only [underscoreOK]
  rw [if_neg (zero_not_sign _)]
  rcases h with rfl | ⟨m, r, rfl, hm⟩
  · rw [if_neg (by simp), hstart]
  · obtain ⟨h1, h2, h3⟩ := marker_lower m
    have n1 : ¬ lower m.toNat = 'b'.toNat := fun h => by
      have := h1.mp h; rw [hm] at this; simp at this
    have n2 : ¬ lower m.toNat = 'o'.toNat := fun h => by
      have := h2.mp h; rw [hm] at this; simp at this
    have n3 : ¬ lower m.toNat = 'x'.toNat := fun h => by
      have := h3.mp h; rw [hm] at this; simp at this
    rw [byteAt_one, if_neg, hstart]
    rintro ⟨_, _, h | h | h⟩
    · exact n1 h
    · exact n2 h
    · exact n3 h

/-- `ParseUint` in terms of its parts: it succeeds with `n` exactly when the
digit loop does and the underscores, if any, are well placed. -/
theorem parseUint_ok_iff (s : List Char) (n : Nat) :
    ParseUint s = (n, none) ↔
      s ≠ [] ∧ ∃ u, digitLoop (pickBase s).1 (maxUint64 / (pickBase s).1 + 1) (2 ^ 64 - 1)
        (pickBase s).2 0 false = .ok (n, u) ∧ (u = true → underscoreOK s = true) := by
  unfold ParseUint
  by_cases hs : s = []
  · simp [hs]
  · rw [if_neg hs]
    simp only
    cases hl : digitLoop (pickBase s).1 (maxUint64 / (pickBase s).1 + 1) (2 ^ 64 - 1)
        (pickBase s).2 0 false with
    | error e => cases e <;> simp [hs]
    | ok r =>
      obtain ⟨v, u⟩ := r
      simp only [hs, ne_eq, not_false_eq_true, Except.ok.injEq, Prod.mk.injEq, true_and]
      by_cases hu : u = true ∧ underscoreOK s = false
      · rw [if_pos hu]
        obtain ⟨hu1, hu2⟩ := hu
        simp [hu1, hu2]
      · rw [if_neg hu]
        constructor
        · intro h
          simp only [Prod.mk.injEq, and_true] at h
          refine ⟨u, ⟨h, rfl⟩, ?_⟩
          intro hu1
          by_contra hne
          exact hu ⟨hu1, by simpa using hne⟩
        · rintro ⟨u', ⟨h1, _⟩, _⟩
          simp [h1]

/-- A failed `ParseUint` reports a range error only with the value
`2 ^ 64 - 1`. -/
theorem parseUint_range (s : List Char) (v : Nat) (h : ParseUint s = (v, some .range)) :
    v = 2 ^ 64 - 1 := by
  unfold ParseUint at h
  by_cases hs : s = []
  · simp [hs] at h
  · rw [if_neg hs] at h
    simp only at h
    cases hl : digitLoop (pickBase s).1 (maxUint64 / (pickBase s).1 + 1) (2 ^ 64 - 1)
        (pickBase s).2 0 false with
    | error e =>
      rw [hl] at h
      cases e
      · simp at h
      · simp at h
        exact h.symm
    | ok r =>
      obtain ⟨v', u⟩ := r
      rw [hl] at h
      simp only at h
      split_ifs at h <;> simp at h

/-- `ParseUint` succeeds with `n` exactly when what follows the base marker
is made of digits of the base and underscores, denotes `n`, `n` fits in 64
bits, and the underscores, if any, are well placed. -/
theorem parseUint_eval (s : List Char) (b : Nat) (r : List Char) (n : Nat) (hs : s ≠ [])
    (hp : pickBase s = (b, r)) (hb : 1 ≤ b) :
    ParseUint s = (n, none) ↔
      (∀ c ∈ r, c = '_' ∨ isDigit b c = true) ∧ n = digitsValue b r ∧ n < 2 ^ 64 ∧
        ('_' ∈ r → underscoreOK s = true) := by
  rw [parseUint_ok_iff, hp]
  simp only
  constructor
  · rintro ⟨_, u, hl, hu⟩
    obtain ⟨h1, h2, h3, h4⟩ := digitLoop_ok_inv b hb r 0 false n u hl (by norm_num)
    refine ⟨h1, h2, h3, ?_⟩
    intro hmem
    apply hu
    rw [h4]
    simp [hmem]
  · rintro ⟨h1, h2, h3, h4⟩
    refine ⟨hs, decide ('_' ∈ r), ?_, ?_⟩
    · have := digitLoop_of_valid b hb r 0 false h1 (by rw [← digitsValue, ← h2]; exact h3)
      rw [this, h2]
      simp [digitsValue]
    · intro hu
      exact h4 (by simpa using hu)

/-- Every unsigned literal that fits in 64 bits is parsed to the number it
denotes. -/
theorem parseUint_of_literal (s : List Char) (n : Nat) (h : UintLiteral s n)
    (hn : n < 2 ^ 64) : ParseUint s = (n, none) := by
  cases h with
  | zero => decide
  | decimal _ hseq hhead =>
    obtain ⟨c, t, rfl⟩ := List.exists_cons_of_ne_nil
      (fun h0 : s = [] => not_digitSeq_nil 10 (h0 ▸ hseq))
    have hc : c ≠ '0' := fun h0 => hhead (by rw [h0]; rfl)
    have hv := digitSeq_valid 10 _ hseq
    rw [parseUint_eval (c :: t) 10 (c :: t) _ (by simp) (pickBase_decimal c t hc) (by norm_num)]
    refine ⟨hv, rfl, hn, fun _ => ?_⟩
    rw [underscoreOK_decimal c t hc (hv c (List.mem_cons_self c t))]
    exact ((underscoreScan_iff false 10 (Or.inl ⟨rfl, le_refl 10⟩) (c :: t) hv).2.2).mpr
      (Or.inr hseq)
  | marked m b cs hm hsep =>
    obtain ⟨c, t, rfl⟩ := List.exists_cons_of_ne_nil
      (fun h0 : cs = [] => not_sepDigits_nil b (h0 ▸ hsep))
    have hv := sepDigits_valid b _ hsep
    have hb : 1 ≤ b := by rcases markerBase_cases m b hm with rfl | rfl | rfl <;> norm_num
    have hsb : (decide (b = 16) = false ∧ b ≤ 10) ∨ (decide (b = 16) = true ∧ b = 16) := by
      rcases markerBase_cases m b hm with rfl | rfl | rfl <;> simp
    rw [parseUint_eval ('0' :: m :: c :: t) b (c :: t) _ (by simp) (pickBase_marked m b c t hm) hb]
    refine ⟨hv, rfl, hn, fun _ => ?_⟩
    rw [underscoreOK_marked m b (c :: t) hm]
    exact ((underscoreScan_iff _ b hsb (c :: t) hv).2.1).mpr (Or.inr hsep)
  | octal cs hsep =>
    obtain ⟨c, t, rfl⟩ := List.exists_cons_of_ne_nil
      (fun h0 : cs = [] => not_sepDigits_nil 8 (h0 ▸ hsep))
    have hv := sepDigits_valid 8 _ hsep
    have hnm : markerBase c = none :=
      markerBase_none_of_valid 8 (by norm_num) c (hv c (List.mem_cons_self c t))
    rw [parseUint_eval ('0' :: c :: t) 8 (c :: t) _ (by simp)
      (pickBase_octal (c :: t) (Or.inr ⟨c, t, rfl, hnm⟩)) (by norm_num)]
    refine ⟨hv, rfl, hn, fun _ => ?_⟩
    rw [underscoreOK_octal (c :: t) (Or.inr ⟨c, t, rfl, hnm⟩)]
    exact ((underscoreScan_iff false 8 (Or.inl ⟨rfl, by norm_num⟩) (c :: t) hv).2.1).mpr
      (Or.inr hsep)

/-- Digits and underscores that pass the loop, and the underscore check when
there is an underscore, form a digit sequence, given what the check accepts. -/
theorem seq_of_valid (b : Nat) (r : List Char) (P : Prop) (ok : Bool)
    (hv : ∀ c ∈ r, c = '_' ∨ isDigit b c = true) (hne : r ≠ [])
    (hu : '_' ∈ r → ok = true) (hscan : ok = true → P) (hseq : DigitSeq b r → P) : P := by
  by_cases hmem : '_' ∈ r
  · exact hscan (hu hmem)
  · apply hseq
    apply digitSeq_of_digits b r hne
    intro c hc
    rcases hv c hc with rfl | h
    · exact absurd hc hmem
    · exact h

/-- Whatever `ParseUint` accepts is an unsigned literal that denotes the
number returned, and that number fits in 64 bits. -/
theorem literal_of_parseUint (s : List Char) (n : Nat) (h : ParseUint s = (n, none)) :
    UintLiteral s n ∧ n < 2 ^ 64 := by
  have hs : s ≠ [] := ((parseUint_ok_iff s n).mp h).1
  obtain ⟨c0, t, rfl⟩ := List.exists_cons_of_ne_nil hs
  by_cases hc0 : c0 = '0'
  · subst hc0
    by_cases hmk : ∃ m b c r, t = m :: c :: r ∧ markerBase m = some b
    · obtain ⟨m, b, c, r, rfl, hm⟩ := hmk
      have hb : 1 ≤ b := by rcases markerBase_cases m b hm with rfl | rfl | rfl <;> norm_num
      have hsb : (decide (b = 16) = false ∧ b ≤ 10) ∨ (decide (b = 16) = true ∧ b = 16) := by
        rcases markerBase_cases m b hm with rfl | rfl | rfl <;> simp
      obtain ⟨hv, hval, hn, hu⟩ := (parseUint_eval _ b (c :: r) n (by simp)
        (pickBase_marked m b c r hm) hb).mp h
      refine ⟨?_, hn⟩
      rw [hval]
      apply UintLiteral.marked m b (c :: r) hm
      rw [underscoreOK_marked m b (c :: r) hm] at hu
      refine seq_of_valid b (c :: r) _ _ hv (by simp) hu ?_ (fun hq => Or.inl hq)
      intro hscan
      rcases ((underscoreScan_iff _ b hsb (c :: r) hv).2.1).mp hscan with h0 | h0
      · exact absurd h0 (by simp)
      · exact h0
    · have hpick : t.length < 2 ∨ ∃ m r, t = m :: r ∧ markerBase m = none := by
        match t, hmk with
        | [], _ => exact Or.inl (by simp)
        | [_], _ => exact Or.inl (by simp)
        | m :: c :: r, hmk =>
          right
          refine ⟨m, c :: r, rfl, ?_⟩
          cases hm : markerBase m with
          | none => rfl
          | some b => exact absurd ⟨m, b, c, r, rfl, hm⟩ hmk
      obtain ⟨hv, hval, hn, hu⟩ := (parseUint_eval _ 8 t n (by simp)
        (pickBase_octal t hpick) (by norm_num)).mp h
      refine ⟨?_, hn⟩
      rw [hval]
      by_cases ht : t = []
      · subst ht
        exact UintLiteral.zero
      · obtain ⟨c, r, rfl⟩ := List.exists_cons_of_ne_nil ht
        have hnm : markerBase c = none :=
          markerBase_none_of_valid 8 (by norm_num) c (hv c (List.mem_cons_self c r))
        apply UintLiteral.octal (c :: r)
        rw [underscoreOK_octal (c :: r) (Or.inr ⟨c, r, rfl, hnm⟩)] at hu
        refine seq_of_valid 8 (c :: r) _ _ hv (by simp) hu ?_ (fun hq => Or.inl hq)
        intro hscan
        rcases ((underscoreScan_iff false 8 (Or.inl ⟨rfl, by norm_num⟩) (c :: r) hv).2.1).mp
          hscan with h0 | h0
        · exact absurd h0 (by simp)
        · exact h0
  · obtain ⟨hv, hval, hn, hu⟩ := (parseUint_eval _ 10 (c0 :: t) n (by simp)
      (pickBase_decimal c0 t hc0) (by norm_num)).mp h
    refine ⟨?_, hn⟩
    rw [hval]
    apply UintLiteral.decimal (c0 :: t)
    · rw [underscoreOK_decimal c0 t hc0 (hv c0 (List.mem_cons_self c0 t))] at hu
      refine seq_of_valid 10 (c0 :: t) _ _ hv (by simp) hu ?_ (fun hq => hq)
      intro hscan
      rcases ((underscoreScan_iff false 10 (Or.inl ⟨rfl, le_refl 10⟩) (c0 :: t) hv).2.2).mp
        hscan with h0 | h0
      · exact absurd h0 (by simp)
      · exact h0
    · simpa using hc0

/-- `ParseInt` in terms of `ParseUint` on the string without its sign: it
succeeds exactly when `ParseUint` does and the magnitude fits. -/
theorem parseInt_core (s : List Char) (z : Int) (hs : s ≠ []) (neg : Bool) (s1 : List Char)
    (hneg : neg = decide (byteAt s 0 = '-'.toNat))
    (hs1 : s1 = if byteAt s 0 = '+'.toNat ∨ byteAt s 0 = '-'.toNat then s.drop 1 else s) :
    ParseInt s = (z, none) ↔
      ∃ un, ParseUint s1 = (un, none) ∧
        ((neg = false ∧ un < 2 ^ 63 ∧ z = (un : Int)) ∨
          (neg = true ∧ un ≤ 2 ^ 63 ∧ z = -(un : Int))) := by
  unfold ParseInt
  rw [if_neg hs]
  simp only
  rw [← hneg, ← hs1]
  cases hr : ParseUint s1 with
  | mk un e =>
    cases e with
    | none =>
      dsimp only
      rw [if_neg (by simp)]
      cases neg with
      | false =>
        by_cases h1 : un ≥ 2 ^ 63
        · rw [if_pos ⟨rfl, h1⟩]
          constructor
          · intro h
            simp at h
          · rintro ⟨un', he, h | h⟩
            · cases he
              omega
            · exact absurd h.1 (by simp)
        · rw [if_neg (fun h => h1 h.2), if_neg (fun h => Bool.noConfusion h.1), if_neg (by simp)]
          constructor
          · intro h
            have hz : (un : Int) = z := by simpa using h
            exact ⟨un, rfl, Or.inl ⟨rfl, by omega, hz.symm⟩⟩
          · rintro ⟨un', he, h | h⟩
            · cases he
              rw [h.2.2]
            · exact absurd h.1 (by simp)
      | true =>
        rw [if_neg (fun h => Bool.noConfusion h.1)]
        by_cases h1 : un > 2 ^ 63
        · rw [if_pos ⟨rfl, h1⟩]
          constructor
          · intro h
            simp at h
          · rintro ⟨un', he, h | h⟩
            · exact absurd h.1 (by simp)
            · cases he
              omega
        · rw [if_neg (fun h => h1 h.2), if_pos rfl]
          constructor
          · intro h
            have hz : -(un : Int) = z := by simpa using h
            exact ⟨un, rfl, Or.inr ⟨rfl, by omega, hz.symm⟩⟩
          · rintro ⟨un', he, h | h⟩
            · exact absurd h.1 (by simp)
            · cases he
              rw [h.2.2]
    | some e =>
      cases e with
      | invalid => simp
      | range =>
        have hv := parseUint_range s1 un hr
        subst hv
        dsimp only
        rw [if_neg (by simp)]
        have hfalse : ∀ (x : Int × Option NumError), x.2 = some .range →
            (x = (z, none) ↔ ∃ un, ((2 ^ 64 - 1 : Nat), some NumError.range) = (un, none) ∧
              ((neg = false ∧ un < 2 ^ 63 ∧ z = (un : Int)) ∨
                (neg = true ∧ un ≤ 2 ^ 63 ∧ z = -(un : Int)))) := by
          intro x hx
          constructor
          · intro h
            rw [h] at hx
            simp at hx
          · rintro ⟨un, he, _⟩
            simp at he
        cases neg with
        | false =>
          rw [if_pos ⟨rfl, by norm_num⟩]
          exact hfalse _ rfl
        | true =>
          rw [if_neg (fun h => Bool.noConfusion h.1), if_pos ⟨rfl, by norm_num⟩]
          exact hfalse _ rfl

/-- An unsigned literal starts with a decimal digit. -/
theorem uintLiteral_head (s : List Char) (n : Nat) (h : UintLiteral s n) :
    ∃ c t, s = c :: t ∧ isDigit 10 c = true := by
  cases h with
  | zero => exact ⟨'0', [], rfl, by decide⟩
  | decimal _ hseq _ =>
    obtain ⟨c, t, rfl⟩ := List.exists_cons_of_ne_nil
      (fun h0 : s = [] => not_digitSeq_nil 10 (h0 ▸ hseq))
    exact ⟨c, t, rfl, ((digitSeq_cons_iff 10 c t).mp hseq).1⟩
  | marked m b cs _ _ => exact ⟨'0', m :: cs, rfl, by decide⟩
  | octal cs _ => exact ⟨'0', cs, rfl, by decide⟩

/-- `ParseInt` accepts exactly the signed integer literals whose value fits
in a signed 64-bit integer, and returns the number they denote. -/
theorem parseInt_iff (s : List Char) (z : Int) :
    ParseInt s = (z, none) ↔ IntLiteral s z ∧ -(2 ^ 63 : Int) ≤ z ∧ z < 2 ^ 63 := by
  have hm : '-'.toNat = 45 := by decide
  have hp : '+'.toNat = 43 := by decide
  by_cases hs : s = []
  · subst hs
    constructor
    · intro h
      simp [ParseInt] at h
    · rintro ⟨h, _⟩
      cases h with
      | plain _ n hu =>
        obtain ⟨c, t, h0, _⟩ := uintLiteral_head _ _ hu
        exact absurd h0 (by simp)
  · obtain ⟨c, t, rfl⟩ := List.exists_cons_of_ne_nil hs
    by_cases hcm : c = '-'
    · subst hcm
      rw [parseInt_core ('-' :: t) z hs true t (by rw [byteAt_zero]; simp)
        (by rw [byteAt_zero]; simp)]
      constructor
      · rintro ⟨un, hu, h | h⟩
        · exact absurd h.1 (by simp)
        · obtain ⟨_, h2, rfl⟩ := h
          obtain ⟨hl, _⟩ := literal_of_parseUint t un hu
          exact ⟨IntLiteral.minus t un hl, by omega, by omega⟩
      · rintro ⟨h, h1, h2⟩
        cases h with
        | plain _ n hu =>
          obtain ⟨c, t', h0, hd⟩ := uintLiteral_head _ _ hu
          cases h0
          exact absurd hd (by decide)
        | minus _ n hu =>
          exact ⟨n, parseUint_of_literal t n hu (by omega), Or.inr ⟨rfl, by omega, rfl⟩⟩
    · by_cases hcp : c = '+'
      · subst hcp
        rw [parseInt_core ('+' :: t) z hs false t (by rw [byteAt_zero]; simp)
          (by rw [byteAt_zero]; simp)]
        constructor
        · rintro ⟨un, hu, h | h⟩
          · obtain ⟨_, h2, rfl⟩ := h
            obtain ⟨hl, _⟩ := literal_of_parseUint t un hu
            exact ⟨IntLiteral.plus t un hl, by omega, by omega⟩
          · exact absurd h.1 (by simp)
        · rintro ⟨h, h1, h2⟩
          cases h with
          | plain _ n hu =>
            obtain ⟨c, t', h0, hd⟩ := uintLiteral_head _ _ hu
            cases h0
            exact absurd hd (by decide)
          | plus _ n hu =>
            exact ⟨n, parseUint_of_literal t n hu (by omega), Or.inl ⟨rfl, by omega, rfl⟩⟩
      · have h1 : ¬ c.toNat = '-'.toNat := fun h => hcm ((char_eq_iff c '-').mpr h)
        have h2 : ¬ c.toNat = '+'.toNat := fun h => hcp ((char_eq_iff c '+').mpr h)
        rw [parseInt_core (c :: t) z hs false (c :: t) (by rw [byteAt_zero]; exact (decide_eq_false h1).symm)
          (by rw [byteAt_zero, if_neg]; rintro (h | h); exact h2 h; exact h1 h)]
        constructor
        · rintro ⟨un, hu, h | h⟩
          · obtain ⟨_, h2, rfl⟩ := h
            obtain ⟨hl, _⟩ := literal_of_parseUint _ un hu
            exact ⟨IntLiteral.plain _ un hl, by omega, by omega⟩
          · exact absurd h.1 (by simp)
        · rintro ⟨h, h3, h4⟩
          cases h with
          | plain _ n hu =>
            exact ⟨n, parseUint_of_literal _ n hu (by omega), Or.inl ⟨rfl, by omega, rfl⟩⟩
          | plus _ n hu => exact absurd rfl hcp
          | minus _ n hu => exact absurd rfl hcm

/-- `ParseUint` accepts exactly the unsigned integer literals whose value
fits in 64 bits, and returns the number they denote. -/
theorem parseUint_iff (s : List Char) (n : Nat) :
    ParseUint s = (n, none) ↔ UintLiteral s n ∧ n < 2 ^ 64 :=
  ⟨literal_of_parseUint s n, fun h => parseUint_of_literal s n h.1 h.2⟩

theorem asInt_ok_iff (p : String) (z : Int) :
    asInt p = .ok z ↔ ParseInt p.toList = (z, none) := by
  unfold asInt
  cases h : ParseInt p.toList with
  | mk i e => cases e <;> simp

theorem asUint_ok_iff (p : String) (n : Nat) :
    asUint p = .ok n ↔ ParseUint p.toList = (n, none) := by
  unfold asUint
  cases h : ParseUint p.toList with
  | mk i e => cases e <;> simp

/-- The only fault of `asInt` is `MalformedParameter`. -/
theorem asInt_cases (p : String) :
    asInt p = .error .MalformedParameter ∨ ∃ z, asInt p = .ok z := by
  unfold asInt
  cases h : ParseInt p.toList with
  | mk i e => cases e <;> simp

/-- The only fault of `asUint` is `MalformedParameter`. -/
theorem asUint_cases (p : String) :
    asUint p = .error .MalformedParameter ∨ ∃ n, asUint p = .ok n := by
  unfold asUint
  cases h : ParseUint p.toList with
  | mk i e => cases e <;> simp

/-! ## Dispatch by category, order tests and the size of a text -/

section Dispatch

variable (ParseFloat : String → Option F64)

/-- On text, sequences and signed integers a parameter that `asInt` rejects
makes all seven comparison predicates raise `MalformedParameter`. -/
theorem allFault_of_asInt_error (v : Value) (p : String)
    (hc : v.category = .Text ∨ v.category = .Sequence ∨ v.category = .SignedInteger)
    (h : asInt p = .error .MalformedParameter) :
    AllFault ParseFloat v p .MalformedParameter := by
  cases v with
  | int k x =>
    cases k <;>
    simp_all [AllFault, AllReturn, length, min, max, gte, lte, lt, gt, asFloat, Value.category,
      Value.kind, Kind.category, bind, Except.bind, pure, Except.pure]
  | uint k x =>
    cases k <;>
    simp_all [AllFault, AllReturn, length, min, max, gte, lte, lt, gt, asFloat, Value.category,
      Value.kind, Kind.category, bind, Except.bind, pure, Except.pure]
  | float k x =>
    cases k <;>
    simp_all [AllFault, AllReturn, length, min, max, gte, lte, lt, gt, asFloat, Value.category,
      Value.kind, Kind.category, bind, Except.bind, pure, Except.pure]
  | complex k re im =>
    cases k <;>
    simp_all [AllFault, AllReturn, length, min, max, gte, lte, lt, gt, asFloat, Value.category,
      Value.kind, Kind.category, bind, Except.bind, pure, Except.pure]
  | _ =>
    simp_all [AllFault, AllReturn, length, min, max, gte, lte, lt, gt, asFloat, Value.category,
      Value.kind, Kind.category, bind, Except.bind, pure, Except.pure]

/-- On text, sequences and signed integers a parameter that `asInt` accepts
makes all seven comparison predicates return a boolean. -/
theorem allReturn_of_asInt_ok (v : Value) (p : String) (n : Int)
    (hc : v.category = .Text ∨ v.category = .Sequence ∨ v.category = .SignedInteger)
    (h : asInt p = .ok n) : AllReturn ParseFloat v p := by
  cases v with
  | int k x =>
    cases k <;>
    simp_all [AllFault, AllReturn, length, min, max, gte, lte, lt, gt, asFloat, Value.category,
      Value.kind, Kind.category, bind, Except.bind, pure, Except.pure]
  | uint k x =>
    cases k <;>
    simp_all [AllFault, AllReturn, length, min, max, gte, lte, lt, gt, asFloat, Value.category,
      Value.kind, Kind.category, bind, Except.bind, pure, Except.pure]
  | float k x =>
    cases k <;>
    simp_all [AllFault, AllReturn, length, min, max, gte, lte, lt, gt, asFloat, Value.category,
      Value.kind, Kind.category, bind, Except.bind, pure, Except.pure]
  | complex k re im =>
    cases k <;>
    simp_all [AllFault, AllReturn, length, min, max, gte, lte, lt, gt, asFloat, Value.category,
      Value.kind, Kind.category, bind, Except.bind, pure, Except.pure]
  | _ =>
    simp_all [AllFault, AllReturn, length, min, max, gte, lte, lt, gt, asFloat, Value.category,
      Value.kind, Kind.category, bind, Except.bind, pure, Except.pure]

/-- On unsigned integers a parameter that `asUint` rejects makes all seven
comparison predicates raise `MalformedParameter`. -/
theorem allFault_of_asUint_error (v : Value) (p : String)
    (hc : v.category = .UnsignedInteger) (h : asUint p = .error .MalformedParameter) :
    AllFault ParseFloat v p .MalformedParameter := by
  cases v with
  | int k x =>
    cases k <;>
    simp_all [AllFault, AllReturn, length, min, max, gte, lte, lt, gt, asFloat, Value.category,
      Value.kind, Kind.category, bind, Except.bind, pure, Except.pure]
  | uint k x =>
    cases k <;>
    simp_all [AllFault, AllReturn, length, min, max, gte, lte, lt, gt, asFloat, Value.category,
      Value.kind, Kind.category, bind, Except.bind, pure, Except.pure]
  | float k x =>
    cases k <;>
    simp_all [AllFault, AllReturn, length, min, max, gte, lte, lt, gt, asFloat, Value.category,
      Value.kind, Kind.category, bind, Except.bind, pure, Except.pure]
  | complex k re im =>
    cases k <;>
    simp_all [AllFault, AllReturn, length, min, max, gte, lte, lt, gt, asFloat, Value.category,
      Value.kind, Kind.category, bind, Except.bind, pure, Except.pure]
  | _ =>
    simp_all [AllFault, AllReturn, length, min, max, gte, lte, lt, gt, asFloat, Value.category,
      Value.kind, Kind.category, bind, Except.bind, pure, Except.pure]

/-- On unsigned integers a parameter that `asUint` accepts makes all seven
comparison predicates return a boolean. -/
theorem allReturn_of_asUint_ok (v : Value) (p : String) (n : Nat)
    (hc : v.category = .UnsignedInteger) (h : asUint p = .ok n) :
    AllReturn ParseFloat v p := by
  cases v with
  | int k x =>
    cases k <;>
    simp_all [AllFault, AllReturn, length, min, max, gte, lte, lt, gt, asFloat, Value.category,
      Value.kind, Kind.category, bind, Except.bind, pure, Except.pure]
  | uint k x =>
    cases k <;>
    simp_all [AllFault, AllReturn, length, min, max, gte, lte, lt, gt, asFloat, Value.category,
      Value.kind, Kind.category, bind, Except.bind, pure, Except.pure]
  | float k x =>
    cases k <;>
    simp_all [AllFault, AllReturn, length, min, max, gte, lte, lt, gt, asFloat, Value.category,
      Value.kind, Kind.category, bind, Except.bind, pure, Except.pure]
  | complex k re im =>
    cases k <;>
    simp_all [AllFault, AllReturn, length, min, max, gte, lte, lt, gt, asFloat, Value.category,
      Value.kind, Kind.category, bind, Except.bind, pure, Except.pure]
  | _ =>
    simp_all [AllFault, AllReturn, length, min, max, gte, lte, lt, gt, asFloat, Value.category,
      Value.kind, Kind.category, bind, Except.bind, pure, Except.pure]

/-- On floats a parameter that `ParseFloat` rejects makes all seven
comparison predicates raise `MalformedParameter`. -/
theorem allFault_of_parseFloat_none (v : Value) (p : String)
    (hc : v.category = .FloatingPoint) (h : ParseFloat p = none) :
    AllFault ParseFloat v p .MalformedParameter := by
  cases v with
  | int k x =>
    cases k <;>
    simp_all [AllFault, AllReturn, length, min, max, gte, lte, lt, gt, asFloat, Value.category,
      Value.kind, Kind.category, bind, Except.bind, pure, Except.pure]
  | uint k x =>
    cases k <;>
    simp_all [AllFault, AllReturn, length, min, max, gte, lte, lt, gt, asFloat, Value.category,
      Value.kind, Kind.category, bind, Except.bind, pure, Except.pure]
  | float k x =>
    cases k <;>
    simp_all [AllFault, AllReturn, length, min, max, gte, lte, lt, gt, asFloat, Value.category,
      Value.kind, Kind.category, bind, Except.bind, pure, Except.pure]
  | complex k re im =>
    cases k <;>
    simp_all [AllFault, AllReturn, length, min, max, gte, lte, lt, gt, asFloat, Value.category,
      Value.kind, Kind.category, bind, Except.bind, pure, Except.pure]
  | _ =>
    simp_all [AllFault, AllReturn, length, min, max, gte, lte, lt, gt, asFloat, Value.category,
      Value.kind, Kind.category, bind, Except.bind, pure, Except.pure]

/-- On floats a parameter that `ParseFloat` accepts makes all seven
comparison predicates return a boolean. -/
theorem allReturn_of_parseFloat_some (v : Value) (p : String) (y : F64)
    (hc : v.category = .FloatingPoint) (h : ParseFloat p = some y) :
    AllReturn ParseFloat v p := by
  cases v with
  | int k x =>
    cases k <;>
    simp_all [AllFault, AllReturn, length, min, max, gte, lte, lt, gt, asFloat, Value.category,
      Value.kind, Kind.category, bind, Except.bind, pure, Except.pure]
  | uint k x =>
    cases k <;>
    simp_all [AllFault, AllReturn, length, min, max, gte, lte, lt, gt, asFloat, Value.category,
      Value.kind, Kind.category, bind, Except.bind, pure, Except.pure]
  | float k x =>
    cases k <;>
    simp_all [AllFault, AllReturn, length, min, max, gte, lte, lt, gt, asFloat, Value.category,
      Value.kind, Kind.category, bind, Except.bind, pure, Except.pure]
  | complex k re im =>
    cases k <;>
    simp_all [AllFault, AllReturn, length, min, max, gte, lte, lt, gt, asFloat, Value.category,
      Value.kind, Kind.category, bind, Except.bind, pure, Except.pure]
  | _ =>
    simp_all [AllFault, AllReturn, length, min, max, gte, lte, lt, gt, asFloat, Value.category,
      Value.kind, Kind.category, bind, Except.bind, pure, Except.pure]

/-- On a value of category Other all seven comparison predicates raise
`UnsupportedFieldType`. -/
theorem allFault_of_other (v : Value) (p : String) (hc : v.category = .Other) :
    AllFault ParseFloat v p .UnsupportedFieldType := by
  cases v with
  | int k x =>
    cases k <;>
    simp_all [AllFault, AllReturn, length, min, max, gte, lte, lt, gt, asFloat, Value.category,
      Value.kind, Kind.category, bind, Except.bind, pure, Except.pure]
  | uint k x =>
    cases k <;>
    simp_all [AllFault, AllReturn, length, min, max, gte, lte, lt, gt, asFloat, Value.category,
      Value.kind, Kind.category, bind, Except.bind, pure, Except.pure]
  | float k x =>
    cases k <;>
    simp_all [AllFault, AllReturn, length, min, max, gte, lte, lt, gt, asFloat, Value.category,
      Value.kind, Kind.category, bind, Except.bind, pure, Except.pure]
  | complex k re im =>
    cases k <;>
    simp_all [AllFault, AllReturn, length, min, max, gte, lte, lt, gt, asFloat, Value.category,
      Value.kind, Kind.category, bind, Except.bind, pure, Except.pure]
  | _ =>
    simp_all [AllFault, AllReturn, length, min, max, gte, lte, lt, gt, asFloat, Value.category,
      Value.kind, Kind.category, bind, Except.bind, pure, Except.pure]

/-- A fault and a returned boolean exclude each other. -/
theorem not_allReturn_of_allFault (v : Value) (p : String) (e : Fault)
    (h : AllFault ParseFloat v p e) : ¬ AllReturn ParseFloat v p := by
  rintro ⟨⟨b, hb⟩, _⟩
  rw [h.1] at hb
  exact Except.noConfusion hb

/-- The six categories. -/
theorem category_cases (v : Value) :
    (v.category = .Text ∨ v.category = .Sequence ∨ v.category = .SignedInteger) ∨
    v.category = .UnsignedInteger ∨ v.category = .FloatingPoint ∨ v.category = .Other := by
  cases h : v.category <;> simp

end Dispatch

/-- The three order tests on two integers, as booleans: exactly one of
less, equal, greater holds, and the weak tests are the complements. -/
theorem int_order_tests (m n : Int) :
    ((decide (m < n) = true ∧ decide (m = n) = false ∧ decide (m > n) = false) ∨
      (decide (m < n) = false ∧ decide (m = n) = true ∧ decide (m > n) = false) ∨
      (decide (m < n) = false ∧ decide (m = n) = false ∧ decide (m > n) = true)) ∧
    decide (m < n) = !decide (m ≥ n) ∧ decide (m > n) = !decide (m ≤ n) ∧
    decide (m ≥ n) = (decide (m > n) || decide (m = n)) := by
  rcases lt_trichotomy m n with h | h | h
  · have h1 : ¬ m = n := by omega
    have h2 : ¬ m > n := by omega
    have h3 : ¬ m ≥ n := by omega
    have h4 : m ≤ n := by omega
    simp [h, h1, h2, h3, h4]
  · subst h
    simp
  · have h1 : ¬ m = n := by omega
    have h2 : ¬ m < n := by omega
    have h3 : m ≥ n := by omega
    have h4 : ¬ m ≤ n := by omega
    simp [h, h1, h2, h3, h4]

/-- The same for two natural numbers. -/
theorem nat_order_tests (m n : Nat) :
    ((decide (m < n) = true ∧ decide (m = n) = false ∧ decide (m > n) = false) ∨
      (decide (m < n) = false ∧ decide (m = n) = true ∧ decide (m > n) = false) ∨
      (decide (m < n) = false ∧ decide (m = n) = false ∧ decide (m > n) = true)) ∧
    decide (m < n) = !decide (m ≥ n) ∧ decide (m > n) = !decide (m ≤ n) ∧
    decide (m ≥ n) = (decide (m > n) || decide (m = n)) := by
  rcases lt_trichotomy m n with h | h | h
  · have h1 : ¬ m = n := by omega
    have h2 : ¬ m > n := by omega
    have h3 : ¬ m ≥ n := by omega
    have h4 : m ≤ n := by omega
    simp [h, h1, h2, h3, h4]
  · subst h
    simp
  · have h1 : ¬ m = n := by omega
    have h2 : ¬ m < n := by omega
    have h3 : m ≥ n := by omega
    have h4 : ¬ m ≤ n := by omega
    simp [h, h1, h2, h3, h4]

theorem length_le_utf8ByteSizeGo (cs : List Char) : cs.length ≤ String.utf8ByteSize.go cs := by
  induction cs with
  | nil => simp [String.utf8ByteSize.go]
  | cons c cs ih =>
    have := c.utf8Size_pos
    simp only [String.utf8ByteSize.go, List.length_cons]
    omega

/-- A text has at least as many bytes as characters. -/
theorem length_le_utf8ByteSize (s : String) : s.length ≤ s.utf8ByteSize := by
  cases s with
  | mk cs => exact length_le_utf8ByteSizeGo cs

theorem utf8Size_ascii (c : Char) (h : c.toNat < 128) : c.utf8Size = 1 := by
  have h1 : c.val ≤ 127 := by
    rw [UInt32.le_def]
    have : c.val.toNat < 128 := h
    show c.val.val ≤ (127 : UInt32).val
    exact Fin.le_def.mpr (by simpa using Nat.le_of_lt_succ this)
  simp [Char.utf8Size, h1]

theorem utf8ByteSizeGo_ascii (cs : List Char) (h : ∀ c ∈ cs, c.toNat < 128) :
    String.utf8ByteSize.go cs = cs.length := by
  induction cs with
  | nil => simp [String.utf8ByteSize.go]
  | cons c cs ih =>
    have h1 := utf8Size_ascii c (h c (List.mem_cons_self c cs))
    have h2 := ih (fun x hx => h x (List.mem_cons_of_mem c hx))
    simp only [String.utf8ByteSize.go, List.length_cons, h1, h2]

/-- A text of ASCII characters has as many bytes as characters. -/
theorem utf8ByteSize_ascii (s : String) (h : ∀ c ∈ s.toList, c.toNat < 128) :
    s.utf8ByteSize = s.length := by
  cases s with
  | mk cs => exact utf8ByteSizeGo_ascii cs h

/-! ## The claims -/

section Claims

variable (ParseFloat : String → Option F64) (R : Patterns)

/-- C1: on text, `length`, `gte`, `lte`, `lt` and `gt` compare the number of
bytes of the text with the parameter, not its number of characters: on the
one-character text "é", which takes two bytes, `length` with "1" is false,
`gte` with "2" is true, `lte` with "1" is false, `lt` with "2" is false and
`gt` with "1" is true. -/
theorem text_length_counts_bytes (named : Bool) :
    (∀ (s p : String) (n : Int), asInt p = .ok n →
      length ParseFloat (.str named s) p = .ok (decide ((s.utf8ByteSize : Int) = n)) ∧
      gte ParseFloat (.str named s) p = .ok (decide ((s.utf8ByteSize : Int) ≥ n)) ∧
      lte ParseFloat (.str named s) p = .ok (decide ((s.utf8ByteSize : Int) ≤ n)) ∧
      lt ParseFloat (.str named s) p = .ok (decide ((s.utf8ByteSize : Int) < n)) ∧
      gt ParseFloat (.str named s) p = .ok (decide ((s.utf8ByteSize : Int) > n))) ∧
    "é".length = 1 ∧ "é".utf8ByteSize = 2 ∧
    asInt "1" = .ok 1 ∧ asInt "2" = .ok 2 ∧
    length ParseFloat (.str named "é") "1" = .ok false ∧
    gte ParseFloat (.str named "é") "2" = .ok true ∧
    lte ParseFloat (.str named "é") "1" = .ok false ∧
    lt ParseFloat (.str named "é") "2" = .ok false ∧
    gt ParseFloat (.str named "é") "1" = .ok true := by
  refine ⟨?_, by decide, by decide, by decide, by decide, rfl, rfl, rfl, rfl, rfl⟩
  intro s p n h
  simp [length, gte, lte, lt, gt, Value.kind, Value.getString, h, bind, Except.bind, pure,
    Except.pure]

/-- C2: alias equivalence. For every value and every parameter, `min` has
the outcome of `gte` and `max` has the outcome of `lte`: the same boolean or
the same fault. -/
theorem min_max_alias (v : Value) (p : String) :
    min ParseFloat v p = gte ParseFloat v p ∧ max ParseFloat v p = lte ParseFloat v p :=
  ⟨rfl, rfl⟩

/-- C3: `asInt` returns a value exactly on the well-formed integer literals
whose value fits in a signed 64-bit integer, and then the number the literal
denotes; on every other string, such as "abc", the empty string, "1.5" and
"9223372036854775808", it raises `MalformedParameter`, and then so do
`length`, `min`, `max`, `gte`, `lte`, `lt` and `gt` on every text, sequence
and signed integer value: they return no boolean. -/
theorem asInt_malformed (p : String) :
    (∀ z : Int, asInt p = .ok z ↔
      (IntLiteral p.toList z ∧ -(2 ^ 63 : Int) ≤ z ∧ z < 2 ^ 63)) ∧
    ((¬ ∃ z : Int, IntLiteral p.toList z ∧ -(2 ^ 63 : Int) ≤ z ∧ z < 2 ^ 63) →
      asInt p = .error .MalformedParameter ∧
      ∀ v : Value,
        (v.category = .Text ∨ v.category = .Sequence ∨ v.category = .SignedInteger) →
        length ParseFloat v p = .error .MalformedParameter ∧
        min ParseFloat v p = .error .MalformedParameter ∧
        max ParseFloat v p = .error .MalformedParameter ∧
        gte ParseFloat v p = .error .MalformedParameter ∧
        lte ParseFloat v p = .error .MalformedParameter ∧
        lt ParseFloat v p = .error .MalformedParameter ∧
        gt ParseFloat v p = .error .MalformedParameter) ∧
    asInt "abc" = .error .MalformedParameter ∧
    asInt "" = .error .MalformedParameter ∧
    asInt "1.5" = .error .MalformedParameter ∧
    asInt "9223372036854775808" = .error .MalformedParameter ∧
    gte ParseFloat (.str false "text") "abc" = .error .MalformedParameter ∧
    length ParseFloat (.slice (some 2)) "1.5" = .error .MalformedParameter ∧
    lt ParseFloat (.int .Int64 7) "9223372036854775808" = .error .MalformedParameter := by
  have hiff : ∀ z : Int, asInt p = .ok z ↔
      (IntLiteral p.toList z ∧ -(2 ^ 63 : Int) ≤ z ∧ z < 2 ^ 63) := fun z => by
    rw [asInt_ok_iff, parseInt_iff]
  refine ⟨hiff, ?_, by decide, by decide, by decide, by decide, rfl, rfl, rfl⟩
  intro hno
  have herr : asInt p = .error .MalformedParameter := by
    rcases asInt_cases p with h | ⟨z, h⟩
    · exact h
    · exact absurd ⟨z, (hiff z).mp h⟩ hno
  refine ⟨herr, ?_⟩
  intro v hv
  cases v with
  | int k x =>
    cases k <;>
      simp [length, min, max, gte, lte, lt, gt, Value.kind, herr, bind, Except.bind]
  | str named s =>
    simp [length, min, max, gte, lte, lt, gt, Value.kind, herr, bind, Except.bind]
  | slice n => simp [length, min, max, gte, lte, lt, gt, Value.kind, herr, bind, Except.bind]
  | map n => simp [length, min, max, gte, lte, lt, gt, Value.kind, herr, bind, Except.bind]
  | array n c z =>
    simp [length, min, max, gte, lte, lt, gt, Value.kind, herr, bind, Except.bind]
  | uint k x => cases k <;> simp [Value.category, Value.kind, Kind.category] at hv
  | float k x => cases k <;> simp [Value.category, Value.kind, Kind.category] at hv
  | complex k re im => cases k <;> simp [Value.category, Value.kind, Kind.category] at hv
  | _ => simp [Value.category, Value.kind, Kind.category] at hv

/-- C4: on a value of category Other, whatever the parameter, each of
`length`, `min`, `max`, `gte`, `lte`, `lt` and `gt` raises
`UnsupportedFieldType`: the parameter is not coerced, so the fault is never
`MalformedParameter`, and no boolean is returned. -/
theorem other_category_unsupported (v : Value) (p : String) (h : v.category = .Other) :
    length ParseFloat v p = .error .UnsupportedFieldType ∧
    min ParseFloat v p = .error .UnsupportedFieldType ∧
    max ParseFloat v p = .error .UnsupportedFieldType ∧
    gte ParseFloat v p = .error .UnsupportedFieldType ∧
    lte ParseFloat v p = .error .UnsupportedFieldType ∧
    lt ParseFloat v p = .error .UnsupportedFieldType ∧
    gt ParseFloat v p = .error .UnsupportedFieldType := by
  cases v with
  | int k x => cases k <;> simp [Value.category, Value.kind, Kind.category] at h
  | uint k x => cases k <;> simp [Value.category, Value.kind, Kind.category] at h
  | float k x => cases k <;> simp [Value.category, Value.kind, Kind.category] at h
  | complex k re im =>
    cases k <;> simp [length, min, max, gte, lte, lt, gt, Value.kind]
  | str named s => simp [Value.category, Value.kind, Kind.category] at h
  | slice n => simp [Value.category, Value.kind, Kind.category] at h
  | map n => simp [Value.category, Value.kind, Kind.category] at h
  | array n c z => simp [Value.category, Value.kind, Kind.category] at h
  | _ => simp [length, min, max, gte, lte, lt, gt, Value.kind]

/-- Witness of C4: a boolean, a struct, a pointer and the nil value, with a
malformed parameter. -/
theorem other_category_unsupported_witness :
    (length (fun _ => none) (.bool true) "abc" = .error .UnsupportedFieldType ∧
    min (fun _ => none) (.bool true) "abc" = .error .UnsupportedFieldType ∧
    max (fun _ => none) (.bool true) "abc" = .error .UnsupportedFieldType ∧
    gte (fun _ => none) (.bool true) "abc" = .error .UnsupportedFieldType ∧
    lte (fun _ => none) (.bool true) "abc" = .error .UnsupportedFieldType ∧
    lt (fun _ => none) (.bool true) "abc" = .error .UnsupportedFieldType ∧
    gt (fun _ => none) (.bool true) "abc" = .error .UnsupportedFieldType) ∧
    Value.category (.struct true false) = .Other ∧
    Value.category (.ptr (some 1)) = .Other ∧
    Value.category .nil = .Other :=
  ⟨other_category_unsupported (fun _ => none) (.bool true) "abc" (by decide),
    by decide, by decide, by decide⟩

/-- C5: `required` ignores its parameter. On a slice, map or array it is
true iff the value has at least one element; on text iff the text is not
empty; on a signed or unsigned integer iff it is not zero; on the nil value,
a nil pointer, channel, slice or map it is false; and on a value that is not
a sequence it is true iff Go's comparison of the value with the zero value of
its own type finds them different. -/
theorem required_semantics (v : Value) (p : String) :
    required v p = required v "" ∧
    (∀ k, v.elementCount = some k → required v p = .ok (decide (0 < k))) ∧
    (∀ named s, v = .str named s → required v p = .ok (decide (s ≠ ""))) ∧
    (∀ k x, v = .int k x → required v p = .ok (decide (x ≠ 0))) ∧
    (∀ k x, v = .uint k x → required v p = .ok (decide (x ≠ 0))) ∧
    (v = .nil ∨ v = .ptr none ∨ v = .chan none ∨ v = .slice none ∨ v = .map none →
      required v p = .ok false) ∧
    (v.category ≠ .Sequence →
      (required v p = .ok true ↔ v ≠ .nil ∧ v.neZero = .ok true)) ∧
    (v.category ≠ .Sequence → v.comparable = true →
      required v p = .ok (!v.equalsZero)) := by
  refine ⟨rfl, ?_, ?_, ?_, ?_, ?_, ?_, ?_⟩
  · intro k hk
    cases v with
    | slice n => cases n <;> simp_all [required, Value.kind, Value.len, Value.elementCount]
    | map n => cases n <;> simp_all [required, Value.kind, Value.len, Value.elementCount]
    | array n c z => simp_all [required, Value.kind, Value.len, Value.elementCount]
    | _ => simp [Value.elementCount] at hk
  · rintro named s rfl
    simp [required, Value.kind, Value.neZero]
  · rintro k x rfl
    cases k <;> simp [required, Value.kind, Value.neZero]
  · rintro k x rfl
    cases k <;> simp [required, Value.kind, Value.neZero]
  · rintro (rfl | rfl | rfl | rfl | rfl) <;>
      simp [required, Value.kind, Value.neZero, Value.len]
  · intro h
    cases v with
    | int k x => cases k <;> simp [required, Value.kind, Value.neZero]
    | uint k x => cases k <;> simp [required, Value.kind, Value.neZero]
    | float k x => cases k <;> simp [required, Value.kind, Value.neZero]
    | complex k re im => cases k <;> simp [required, Value.kind, Value.neZero]
    | slice n => simp [Value.category, Value.kind, Kind.category] at h
    | map n => simp [Value.category, Value.kind, Kind.category] at h
    | array n c z => simp [Value.category, Value.kind, Kind.category] at h
    | _ => simp [required, Value.kind, Value.neZero]
  · intro h hc
    cases v with
    | int k x => cases k <;> simp [required, Value.kind, Value.neZero, Value.equalsZero]
    | uint k x => cases k <;> simp [required, Value.kind, Value.neZero, Value.equalsZero]
    | float k x =>
      cases k <;> simp [required, Value.kind, Value.neZero, Value.equalsZero, F64.ne]
    | complex k re im =>
      cases k <;> simp [required, Value.kind, Value.neZero, Value.equalsZero]
    | slice n => simp [Value.category, Value.kind, Kind.category] at h
    | map n => simp [Value.category, Value.kind, Kind.category] at h
    | array n c z => simp [Value.category, Value.kind, Kind.category] at h
    | func r => simp [Value.comparable] at hc
    | struct c z =>
      simp only [Value.comparable] at hc
      simp [required, Value.kind, Value.neZero, Value.equalsZero, hc]
    | _ => simp [required, Value.kind, Value.neZero, Value.equalsZero]

/-- C6: `required` does fail on type. On a function value, nil or not, and
on a struct whose type is not comparable (it contains a slice, map or
function), the comparison with the zero value panics; `required` returns a
boolean exactly on sequences and on values of comparable type, the nil
value included. -/
theorem required_panics_on_uncomparable (p : String) :
    required (.func (some 0)) p = .error .RuntimePanic ∧
    required (.func none) p = .error .RuntimePanic ∧
    required (.struct false false) p = .error .RuntimePanic ∧
    required (.struct false true) p = .error .RuntimePanic ∧
    required .nil p = .ok false ∧
    (∀ v : Value, (∃ b, required v p = .ok b) ↔
      (v.category = .Sequence ∨ v.comparable = true)) ∧
    (∀ v : Value, required v p = .error .RuntimePanic ↔
      (v.category ≠ .Sequence ∧ v.comparable = false)) := by
  refine ⟨rfl, rfl, rfl, rfl, rfl, ?_, ?_⟩
  · intro v
    cases v with
    | int k x =>
      cases k <;>
        simp [required, Value.kind, Value.neZero, Value.category, Kind.category,
          Value.comparable, em]
    | uint k x =>
      cases k <;>
        simp [required, Value.kind, Value.neZero, Value.category, Kind.category,
          Value.comparable, em]
    | float k x =>
      cases k <;>
        simp [required, Value.kind, Value.neZero, Value.category, Kind.category,
          Value.comparable, em]
    | complex k re im =>
      cases k <;>
        simp [required, Value.kind, Value.neZero, Value.category, Kind.category,
          Value.comparable, em]
    | struct c z =>
      cases c <;>
        simp [required, Value.kind, Value.neZero, Value.category, Kind.category,
          Value.comparable, em]
    | _ =>
      simp [required, Value.kind, Value.neZero, Value.category, Kind.category,
        Value.comparable, em]
  · intro v
    cases v with
    | int k x =>
      cases k <;>
        simp [required, Value.kind, Value.neZero, Value.category, Kind.category,
          Value.comparable]
    | uint k x =>
      cases k <;>
        simp [required, Value.kind, Value.neZero, Value.category, Kind.category,
          Value.comparable]
    | float k x =>
      cases k <;>
        simp [required, Value.kind, Value.neZero, Value.category, Kind.category,
          Value.comparable]
    | complex k re im =>
      cases k <;>
        simp [required, Value.kind, Value.neZero, Value.category, Kind.category,
          Value.comparable]
    | struct c z =>
      cases c <;>
        simp [required, Value.kind, Value.neZero, Value.category, Kind.category,
          Value.comparable]
    | _ =>
      simp [required, Value.kind, Value.neZero, Value.category, Kind.category,
        Value.comparable]

/-- C7: on a signed integer field of any width holding `x`, with a
parameter that `asInt` coerces to `n`, the five predicates return `x = n`,
`x ≥ n`, `x ≤ n`, `x < n` and `x > n`, compared as integers: the parameter
is not truncated to the width of the field. -/
theorem signed_comparison (k : IntKind) (x : Int) (p : String) (n : Int)
    (h : asInt p = .ok n) :
    length ParseFloat (.int k x) p = .ok (decide (x = n)) ∧
    gte ParseFloat (.int k x) p = .ok (decide (x ≥ n)) ∧
    lte ParseFloat (.int k x) p = .ok (decide (x ≤ n)) ∧
    lt ParseFloat (.int k x) p = .ok (decide (x < n)) ∧
    gt ParseFloat (.int k x) p = .ok (decide (x > n)) := by
  cases k <;>
    simp [length, gte, lte, lt, gt, Value.kind, Value.getInt, h, bind, Except.bind, pure,
      Except.pure]

/-- Witness of C7: `lt` on the `int8` 100 with "1000" is true, and `gte` on
the `int8` -5 with "-10" is true. -/
theorem signed_comparison_witness :
    lt (fun _ => none) (.int .Int8 100) "1000" = .ok true ∧
    gte (fun _ => none) (.int .Int8 (-5)) "-10" = .ok true :=
  ⟨by simpa using (signed_comparison (fun _ => none) .Int8 100 "1000" 1000 (by decide)).2.2.2.1,
    by simpa using (signed_comparison (fun _ => none) .Int8 (-5) "-10" (-10) (by decide)).2.1⟩

/-- C8: on an unsigned integer field of any width holding `x`, with a
parameter that `asUint` coerces to `n`, the five predicates return `x = n`,
`x ≥ n`, `x ≤ n`, `x < n` and `x > n`, compared as natural numbers: no value
is read as negative. -/
theorem unsigned_comparison (k : UintKind) (x : Nat) (p : String) (n : Nat)
    (h : asUint p = .ok n) :
    length ParseFloat (.uint k x) p = .ok (decide (x = n)) ∧
    gte ParseFloat (.uint k x) p = .ok (decide (x ≥ n)) ∧
    lte ParseFloat (.uint k x) p = .ok (decide (x ≤ n)) ∧
    lt ParseFloat (.uint k x) p = .ok (decide (x < n)) ∧
    gt ParseFloat (.uint k x) p = .ok (decide (x > n)) := by
  cases k <;>
    simp [length, gte, lte, lt, gt, Value.kind, Value.getUint, h, bind, Except.bind, pure,
      Except.pure]

/-- Witness of C8: `gte` on the `uint64` 18446744073709551615 with
"9223372036854775808" is true, and `lt` is false. -/
theorem unsigned_comparison_witness :
    gte (fun _ => none) (.uint .Uint64 18446744073709551615) "9223372036854775808" = .ok true ∧
    lt (fun _ => none) (.uint .Uint64 18446744073709551615) "9223372036854775808" = .ok false :=
  ⟨by simpa using (unsigned_comparison (fun _ => none) .Uint64 18446744073709551615
      "9223372036854775808" 9223372036854775808 (by decide)).2.1,
    by simpa using (unsigned_comparison (fun _ => none) .Uint64 18446744073709551615
      "9223372036854775808" 9223372036854775808 (by decide)).2.2.2.1⟩

/-- C9: on a slice, map or array of `k` elements, with a parameter that
`asInt` coerces to `n`, the five predicates return `k = n`, `k ≥ n`, `k ≤ n`,
`k < n` and `k > n`; an empty sequence and the empty text are measured as 0
like any other: `length` with "0" is true, `gte` with "0" is true, `gt` with
"0" is false and `lt` with "1" is true. -/
theorem sequence_comparison (v : Value) (k : Nat) (p : String) (n : Int)
    (hv : v.elementCount = some k) (h : asInt p = .ok n) :
    (length ParseFloat v p = .ok (decide ((k : Int) = n)) ∧
    gte ParseFloat v p = .ok (decide ((k : Int) ≥ n)) ∧
    lte ParseFloat v p = .ok (decide ((k : Int) ≤ n)) ∧
    lt ParseFloat v p = .ok (decide ((k : Int) < n)) ∧
    gt ParseFloat v p = .ok (decide ((k : Int) > n))) ∧
    (∀ e : Value, (e.elementCount = some 0 ∨ ∃ named, e = .str named "") →
      length ParseFloat e "0" = .ok true ∧ gte ParseFloat e "0" = .ok true ∧
      gt ParseFloat e "0" = .ok false ∧ lt ParseFloat e "1" = .ok true) := by
  have h0 : asInt "0" = .ok 0 := by decide
  have h1 : asInt "1" = .ok 1 := by decide
  constructor
  · cases v with
    | slice m =>
      cases m <;>
        simp_all [length, gte, lte, lt, gt, Value.kind, Value.len, Value.elementCount, bind,
          Except.bind, pure, Except.pure]
    | map m =>
      cases m <;>
        simp_all [length, gte, lte, lt, gt, Value.kind, Value.len, Value.elementCount, bind,
          Except.bind, pure, Except.pure]
    | array m c z =>
      simp_all [length, gte, lte, lt, gt, Value.kind, Value.len, Value.elementCount, bind,
        Except.bind, pure, Except.pure]
    | _ => simp [Value.elementCount] at hv
  · rintro e (he | ⟨named, rfl⟩)
    · cases e with
      | slice m =>
        cases m <;>
          simp_all [length, gte, lte, lt, gt, Value.kind, Value.len, Value.elementCount, bind,
            Except.bind, pure, Except.pure]
      | map m =>
        cases m <;>
          simp_all [length, gte, lte, lt, gt, Value.kind, Value.len, Value.elementCount, bind,
            Except.bind, pure, Except.pure]
      | array m c z =>
        simp_all [length, gte, lte, lt, gt, Value.kind, Value.len, Value.elementCount, bind,
          Except.bind, pure, Except.pure]
      | _ => simp [Value.elementCount] at he
    · refine ⟨rfl, rfl, rfl, rfl⟩

/-- Witness of C9: a slice of three elements against "0x3", and a nil map
against "-1". -/
theorem sequence_comparison_witness :
    length (fun _ => none) (.slice (some 3)) "0x3" = .ok true ∧
    gt (fun _ => none) (.map none) "-1" = .ok true ∧
    lt (fun _ => none) (.array 0 true true) "1" = .ok true :=
  ⟨by simpa using (sequence_comparison (fun _ => none) (.slice (some 3)) 3 "0x3" 3
      (by decide) (by decide)).1.1,
    by simpa using (sequence_comparison (fun _ => none) (.map none) 0 "-1" (-1)
      (by decide) (by decide)).1.2.2.2.2,
    ((sequence_comparison (fun _ => none) (.map none) 0 "-1" (-1)
      (by decide) (by decide)).2 (.array 0 true true) (Or.inl (by decide))).2.2.2⟩

/-- C10: integer coercion honours base markers. `asInt` and `asUint` take
"0x0A" to 10 and "10" to 10; on "0x" followed by hexadecimal digits they
return the number the digits denote in base 16, and on decimal digits
without a leading zero the number they denote in base 10, whenever that
number is in the range of the result type. -/
theorem base_markers_honoured :
    asInt "0x0A" = .ok 10 ∧ asUint "0x0A" = .ok 10 ∧
    asInt "10" = .ok 10 ∧ asUint "10" = .ok 10 ∧
    (∀ ds : List Char, ds ≠ [] → (∀ c ∈ ds, isDigit 16 c = true) →
      (digitsValue 16 ds < 2 ^ 64 →
        asUint (String.mk ('0' :: 'x' :: ds)) = .ok (digitsValue 16 ds)) ∧
      (digitsValue 16 ds < 2 ^ 63 →
        asInt (String.mk ('0' :: 'x' :: ds)) = .ok (digitsValue 16 ds : Nat))) ∧
    (∀ ds : List Char, ds ≠ [] → (∀ c ∈ ds, isDigit 10 c = true) → ds.head? ≠ some '0' →
      (digitsValue 10 ds < 2 ^ 64 → asUint (String.mk ds) = .ok (digitsValue 10 ds)) ∧
      (digitsValue 10 ds < 2 ^ 63 → asInt (String.mk ds) = .ok (digitsValue 10 ds : Nat))) := by
  refine ⟨by decide, by decide, by decide, by decide, ?_, ?_⟩
  · intro ds hne hd
    have hlit : UintLiteral ('0' :: 'x' :: ds) (digitsValue 16 ds) :=
      UintLiteral.marked 'x' 16 ds (by decide) (Or.inl (digitSeq_of_digits 16 ds hne hd))
    constructor
    · intro hr
      rw [asUint_ok_iff]
      exact parseUint_of_literal _ _ hlit hr
    · intro hr
      rw [asInt_ok_iff, parseInt_iff]
      exact ⟨IntLiteral.plain _ _ hlit, by omega, by omega⟩
  · intro ds hne hd hz
    have hlit : UintLiteral ds (digitsValue 10 ds) :=
      UintLiteral.decimal ds (digitSeq_of_digits 10 ds hne hd) hz
    constructor
    · intro hr
      rw [asUint_ok_iff]
      exact parseUint_of_literal _ _ hlit hr
    · intro hr
      rw [asInt_ok_iff, parseInt_iff]
      exact ⟨IntLiteral.plain _ _ hlit, by omega, by omega⟩

/-- Witness of C10: "0x1F" and "255" through the general statements. -/
theorem base_markers_honoured_witness :
    asUint "0x1F" = .ok 31 ∧ asInt "0x1F" = .ok 31 ∧
    asUint "255" = .ok 255 ∧ asInt "255" = .ok 255 :=
  ⟨(base_markers_honoured.2.2.2.2.1 ['1', 'F'] (by decide) (by decide)).1 (by decide),
    (base_markers_honoured.2.2.2.2.1 ['1', 'F'] (by decide) (by decide)).2 (by decide),
    (base_markers_honoured.2.2.2.2.2 ['2', '5', '5'] (by decide) (by decide) (by decide)).1
      (by decide),
    (base_markers_honoured.2.2.2.2.2 ['2', '5', '5'] (by decide) (by decide) (by decide)).2
      (by decide)⟩

/-- C11: the parameter is coerced in the numeric kind of the field's
category. On an unsigned integer it is parsed by `asUint`: all seven
comparison predicates raise `MalformedParameter` on "-1", return a boolean
on "18446744073709551615", and return a boolean exactly when `asUint`
accepts the parameter. On text, sequences and signed integers it is parsed
by `asInt`: the predicates return a boolean on "-1", raise
`MalformedParameter` on "18446744073709551615", and return a boolean exactly
when `asInt` accepts the parameter. On floats it is parsed by `ParseFloat`. -/
theorem coercion_matches_category (v : Value) (p : String) :
    (v.category = .UnsignedInteger →
      AllFault ParseFloat v "-1" .MalformedParameter ∧
      AllReturn ParseFloat v "18446744073709551615" ∧
      (AllReturn ParseFloat v p ↔ ∃ n, asUint p = .ok n) ∧
      ((¬ ∃ n, asUint p = .ok n) → AllFault ParseFloat v p .MalformedParameter)) ∧
    ((v.category = .Text ∨ v.category = .Sequence ∨ v.category = .SignedInteger) →
      AllReturn ParseFloat v "-1" ∧
      AllFault ParseFloat v "18446744073709551615" .MalformedParameter ∧
      (AllReturn ParseFloat v p ↔ ∃ n, asInt p = .ok n) ∧
      ((¬ ∃ n, asInt p = .ok n) → AllFault ParseFloat v p .MalformedParameter)) ∧
    (v.category = .FloatingPoint →
      (AllReturn ParseFloat v p ↔ ∃ y, ParseFloat p = some y) ∧
      (ParseFloat p = none → AllFault ParseFloat v p .MalformedParameter)) ∧
    gte ParseFloat (.uint .Uint 0) "-1" = .error .MalformedParameter ∧
    gte ParseFloat (.uint .Uint64 18446744073709551615) "18446744073709551615" = .ok true ∧
    gte ParseFloat (.int .Int 0) "-1" = .ok true ∧
    gte ParseFloat (.int .Int 0) "18446744073709551615" = .error .MalformedParameter := by
  refine ⟨?_, ?_, ?_, rfl, rfl, rfl, rfl⟩
  · intro hc
    have hfault : (¬ ∃ n, asUint p = .ok n) → AllFault ParseFloat v p .MalformedParameter := by
      intro hno
      rcases asUint_cases p with h | h
      · exact allFault_of_asUint_error ParseFloat v p hc h
      · exact absurd h hno
    refine ⟨allFault_of_asUint_error ParseFloat v _ hc (by decide),
      allReturn_of_asUint_ok ParseFloat v _ 18446744073709551615 hc (by decide), ?_, hfault⟩
    constructor
    · intro hr
      by_contra hno
      exact not_allReturn_of_allFault ParseFloat v p _ (hfault hno) hr
    · rintro ⟨n, hn⟩
      exact allReturn_of_asUint_ok ParseFloat v p n hc hn
  · intro hc
    have hfault : (¬ ∃ n, asInt p = .ok n) → AllFault ParseFloat v p .MalformedParameter := by
      intro hno
      rcases asInt_cases p with h | h
      · exact allFault_of_asInt_error ParseFloat v p hc h
      · exact absurd h hno
    refine ⟨allReturn_of_asInt_ok ParseFloat v _ (-1) hc (by decide),
      allFault_of_asInt_error ParseFloat v _ hc (by decide), ?_, hfault⟩
    constructor
    · intro hr
      by_contra hno
      exact not_allReturn_of_allFault ParseFloat v p _ (hfault hno) hr
    · rintro ⟨n, hn⟩
      exact allReturn_of_asInt_ok ParseFloat v p n hc hn
  · intro hc
    have hfault : ParseFloat p = none → AllFault ParseFloat v p .MalformedParameter :=
      allFault_of_parseFloat_none ParseFloat v p hc
    refine ⟨?_, hfault⟩
    constructor
    · intro hr
      cases hy : ParseFloat p with
      | none => exact absurd hr (not_allReturn_of_allFault ParseFloat v p _ (hfault hy))
      | some y => exact ⟨y, rfl⟩
    · rintro ⟨y, hy⟩
      exact allReturn_of_parseFloat_some ParseFloat v p y hc hy

/-- C12: the format matchers do not accept every text value. On a value of
a defined type whose kind is string, the type assertion `field.(string)`
panics, so each of the eleven matchers raises a run-time fault whatever the
text and the parameter; on a value of type `string` itself each returns the
result of its own pattern on the text, whatever the parameter. -/
theorem matchers_panic_on_defined_string_type (s p : String) :
    matcherOutcomes R (.str true s) p = List.replicate 11 (.error .RuntimePanic) ∧
    matcherOutcomes R (.str false s) p = patternResults R s ∧
    Value.category (.str true s) = .Text ∧
    email R (.str true "test@example.com") "" = .error .RuntimePanic :=
  ⟨rfl, rfl, rfl, rfl⟩

/-- C13: on a value that is not of category Text, whatever the parameter,
each of the eleven format matchers raises `UnsupportedFieldType` and returns
no boolean. -/
theorem matchers_unsupported_off_text (v : Value) (p : String) (h : v.category ≠ .Text) :
    matcherOutcomes R v p = List.replicate 11 (.error .UnsupportedFieldType) := by
  cases v with
  | int k x =>
    cases k <;>
    simp [matcherOutcomes, alpha, alphanum, numeric, number, hexadecimal, hexcolor, rgb, rgba,
      hsl, hsla, email, Value.kind, List.replicate]
  | uint k x =>
    cases k <;>
    simp [matcherOutcomes, alpha, alphanum, numeric, number, hexadecimal, hexcolor, rgb, rgba,
      hsl, hsla, email, Value.kind, List.replicate]
  | float k x =>
    cases k <;>
    simp [matcherOutcomes, alpha, alphanum, numeric, number, hexadecimal, hexcolor, rgb, rgba,
      hsl, hsla, email, Value.kind, List.replicate]
  | complex k re im =>
    cases k <;>
    simp [matcherOutcomes, alpha, alphanum, numeric, number, hexadecimal, hexcolor, rgb, rgba,
      hsl, hsla, email, Value.kind, List.replicate]
  | str named s => simp [Value.category, Value.kind, Kind.category] at h
  | _ =>
    simp [matcherOutcomes, alpha, alphanum, numeric, number, hexadecimal, hexcolor, rgb, rgba,
      hsl, hsla, email, Value.kind, List.replicate]

/-- Witness of C13: an integer, a float, a slice, a boolean and the nil
value. -/
theorem matchers_unsupported_off_text_witness :
    email ⟨fun _ => true, fun _ => true, fun _ => true, fun _ => true, fun _ => true,
      fun _ => true, fun _ => true, fun _ => true, fun _ => true, fun _ => true,
      fun _ => true⟩ (.int .Int 7) "" = .error .UnsupportedFieldType ∧
    Value.category (.float .Float64 F64.zero) ≠ .Text ∧
    Value.category (.slice (some 1)) ≠ .Text ∧
    Value.category (.bool true) ≠ .Text ∧
    Value.category .nil ≠ .Text := by
  refine ⟨?_, by decide, by decide, by decide, by decide⟩
  have h := matchers_unsupported_off_text ⟨fun _ => true, fun _ => true, fun _ => true,
    fun _ => true, fun _ => true, fun _ => true, fun _ => true, fun _ => true, fun _ => true,
    fun _ => true, fun _ => true⟩ (.int .Int 7) "" (by decide)
  simpa [matcherOutcomes, List.replicate] using congrArg (fun l => l.getLast?) h

/-- C14: the registry resolves exactly nineteen rule names, each to the
predicate of the same name, `len` to `length`; the entries of `min` and
`gte`, and of `max` and `lte`, are equal on every value and parameter; the
lookup of any other name, such as "length", the empty name or "Min", finds
nothing. -/
theorem registry_entries :
    (BakedInValidators ParseFloat R).map Prod.fst = ruleNames ∧
    ruleNames.length = 19 ∧ ruleNames.Nodup ∧
    Lookup ParseFloat R "required" = some required ∧
    Lookup ParseFloat R "len" = some (length ParseFloat) ∧
    Lookup ParseFloat R "min" = some (min ParseFloat) ∧
    Lookup ParseFloat R "max" = some (max ParseFloat) ∧
    Lookup ParseFloat R "lt" = some (lt ParseFloat) ∧
    Lookup ParseFloat R "lte" = some (lte ParseFloat) ∧
    Lookup ParseFloat R "gt" = some (gt ParseFloat) ∧
    Lookup ParseFloat R "gte" = some (gte ParseFloat) ∧
    Lookup ParseFloat R "alpha" = some (alpha R) ∧
    Lookup ParseFloat R "alphanum" = some (alphanum R) ∧
    Lookup ParseFloat R "numeric" = some (numeric R) ∧
    Lookup ParseFloat R "number" = some (number R) ∧
    Lookup ParseFloat R "hexadecimal" = some (hexadecimal R) ∧
    Lookup ParseFloat R "hexcolor" = some (hexcolor R) ∧
    Lookup ParseFloat R "rgb" = some (rgb R) ∧
    Lookup ParseFloat R "rgba" = some (rgba R) ∧
    Lookup ParseFloat R "hsl" = some (hsl R) ∧
    Lookup ParseFloat R "hsla" = some (hsla R) ∧
    Lookup ParseFloat R "email" = some (email R) ∧
    (∀ name : String, (∃ f, Lookup ParseFloat R name = some f) ↔ name ∈ ruleNames) ∧
    (∀ name : String, name ∉ ruleNames → Lookup ParseFloat R name = none) ∧
    (∀ f g : ValidationFunc, Lookup ParseFloat R "min" = some f →
      Lookup ParseFloat R "gte" = some g → ∀ v p, f v p = g v p) ∧
    (∀ f g : ValidationFunc, Lookup ParseFloat R "max" = some f →
      Lookup ParseFloat R "lte" = some g → ∀ v p, f v p = g v p) ∧
    Lookup ParseFloat R "length" = none ∧ Lookup ParseFloat R "" = none ∧
    Lookup ParseFloat R "Min" = none := by
  have hnone : ∀ name : String, name ∉ ruleNames → Lookup ParseFloat R name = none := by
    intro name hn
    unfold Lookup
    rw [List.lookup_eq_none_iff]
    intro e he
    have hmem : e.1 ∈ (BakedInValidators ParseFloat R).map Prod.fst :=
      List.mem_map_of_mem Prod.fst he
    have hne : name ≠ e.1 := fun hk => hn (hk ▸ hmem)
    simpa using hne
  refine ⟨rfl, rfl, by decide, rfl, rfl, rfl, rfl, rfl, rfl, rfl, rfl, rfl, rfl, rfl, rfl, rfl,
    rfl, rfl, rfl, rfl, rfl, rfl, ?_, hnone, ?_, ?_, rfl, rfl, rfl⟩
  · intro name
    constructor
    · rintro ⟨f, hf⟩
      by_contra hn
      rw [hnone name hn] at hf
      exact Option.noConfusion hf
    · intro hn
      have hcases : ∀ n ∈ ruleNames, ∃ f, Lookup ParseFloat R n = some f := by
        intro n hmem
        simp only [ruleNames, List.mem_cons, List.mem_singleton, List.not_mem_nil,
          or_false] at hmem
        rcases hmem with h | h | h | h | h | h | h | h | h | h | h | h | h | h | h | h | h
          | h | h <;> subst h <;> exact ⟨_, rfl⟩
      exact hcases name hn
  · intro f g hf hg v p
    have h1 : f = min ParseFloat := (Option.some.inj hf).symm
    have h2 : g = gte ParseFloat := (Option.some.inj hg).symm
    rw [h1, h2]
    rfl
  · intro f g hf hg v p
    have h1 : f = max ParseFloat := (Option.some.inj hf).symm
    have h2 : g = lte ParseFloat := (Option.some.inj hg).symm
    rw [h1, h2]
    rfl

/-- C15: `max` is not the lesser-than test its comment announces. It is
`lte`: on a number `x` and a parameter coerced to `n` it returns `x ≤ n`, so
on `x = n`, such as the integer 5 with "5", it is true although 5 is not
lesser than 5. -/
theorem max_accepts_the_bound :
    (∀ (k : IntKind) (x : Int) (p : String) (n : Int), asInt p = .ok n →
      max ParseFloat (.int k x) p = .ok (decide (x ≤ n))) ∧
    (∀ (k : UintKind) (x : Nat) (p : String) (n : Nat), asUint p = .ok n →
      max ParseFloat (.uint k x) p = .ok (decide (x ≤ n))) ∧
    (∀ (k : FloatKind) (x : F64) (p : String) (y : F64), ParseFloat p = some y →
      max ParseFloat (.float k x) p = .ok (F64.le x y)) ∧
    asInt "5" = .ok 5 ∧ asUint "5" = .ok 5 ∧
    max ParseFloat (.int .Int 5) "5" = .ok true ∧
    max ParseFloat (.uint .Uint8 5) "5" = .ok true ∧
    lt ParseFloat (.int .Int 5) "5" = .ok false ∧
    ¬ ((5 : Int) < 5) := by
  refine ⟨?_, ?_, ?_, by decide, by decide, rfl, rfl, rfl, by decide⟩
  · intro k x p n h
    cases k <;>
    simp [max, lte, Value.kind, Value.getInt, h, bind, Except.bind, pure, Except.pure]
  · intro k x p n h
    cases k <;>
    simp [max, lte, Value.kind, Value.getUint, h, bind, Except.bind, pure, Except.pure]
  · intro k x p y h
    cases k <;>
    simp [max, lte, asFloat, Value.kind, Value.getFloat, h, bind, Except.bind, pure,
      Except.pure]

/-- C16: on a floating-point field of either width holding `x`, with a
parameter that `ParseFloat` coerces to `y`, the five predicates return
`x == y`, `x >= y`, `x <= y`, `x < y` and `x > y` as Go compares floats, all
five false when `x` is not a number; a parameter that `ParseFloat` rejects
raises `MalformedParameter`. -/
theorem float_comparison (k : FloatKind) (x : F64) (p : String) :
    (∀ y : F64, ParseFloat p = some y →
      length ParseFloat (.float k x) p = .ok (F64.eq x y) ∧
      gte ParseFloat (.float k x) p = .ok (F64.ge x y) ∧
      lte ParseFloat (.float k x) p = .ok (F64.le x y) ∧
      lt ParseFloat (.float k x) p = .ok (F64.lt x y) ∧
      gt ParseFloat (.float k x) p = .ok (F64.gt x y) ∧
      (x.isNaN = true →
        length ParseFloat (.float k x) p = .ok false ∧
        gte ParseFloat (.float k x) p = .ok false ∧
        lte ParseFloat (.float k x) p = .ok false ∧
        lt ParseFloat (.float k x) p = .ok false ∧
        gt ParseFloat (.float k x) p = .ok false)) ∧
    (ParseFloat p = none →
      length ParseFloat (.float k x) p = .error .MalformedParameter ∧
      gte ParseFloat (.float k x) p = .error .MalformedParameter ∧
      lte ParseFloat (.float k x) p = .error .MalformedParameter ∧
      lt ParseFloat (.float k x) p = .error .MalformedParameter ∧
      gt ParseFloat (.float k x) p = .error .MalformedParameter) := by
  constructor
  · intro y h
    have h5 : length ParseFloat (.float k x) p = .ok (F64.eq x y) ∧
        gte ParseFloat (.float k x) p = .ok (F64.ge x y) ∧
        lte ParseFloat (.float k x) p = .ok (F64.le x y) ∧
        lt ParseFloat (.float k x) p = .ok (F64.lt x y) ∧
        gt ParseFloat (.float k x) p = .ok (F64.gt x y) := by
      cases k <;>
      simp [length, gte, lte, lt, gt, asFloat, Value.kind, Value.getFloat, h, bind,
        Except.bind, pure, Except.pure]
    obtain ⟨h1, h2, h3, h4, h6⟩ := h5
    refine ⟨h1, h2, h3, h4, h6, ?_⟩
    intro hn
    rw [h1, h2, h3, h4, h6]
    simp [F64.eq, F64.ge, F64.le, F64.lt, F64.gt, hn]
  · intro h
    cases k <;>
    simp [length, gte, lte, lt, gt, asFloat, Value.kind, h, bind, Except.bind]

/-- Witness of C16, with a parser that knows "1.5": the `float64` 2 and the
`float32` -1 against it, a NaN against it, and a parameter that does not
parse. The bit patterns are those of 1.5, 2, -1 and a quiet NaN. -/
theorem float_comparison_witness :
    gte (fun s => if s = "1.5" then some ⟨0x3FF8000000000000⟩ else none)
      (.float .Float64 ⟨0x4000000000000000⟩) "1.5" = .ok true ∧
    lt (fun s => if s = "1.5" then some ⟨0x3FF8000000000000⟩ else none)
      (.float .Float32 ⟨0xBFF0000000000000⟩) "1.5" = .ok true ∧
    lte (fun s => if s = "1.5" then some ⟨0x3FF8000000000000⟩ else none)
      (.float .Float64 ⟨0x7FF8000000000000⟩) "1.5" = .ok false ∧
    length (fun s => if s = "1.5" then some ⟨0x3FF8000000000000⟩ else none)
      (.float .Float64 ⟨0x4000000000000000⟩) "abc" = .error .MalformedParameter ∧
    F64.eq ⟨0x8000000000000000⟩ F64.zero = true ∧
    F64.eq ⟨0x7FF8000000000000⟩ ⟨0x7FF8000000000000⟩ = false ∧
    F64.lt ⟨0xFFF0000000000000⟩ ⟨0xBFF0000000000000⟩ = true ∧
    F64.lt ⟨0x3FF8000000000000⟩ ⟨0x7FF0000000000000⟩ = true :=
  ⟨by simpa using ((float_comparison
      (fun s => if s = "1.5" then some ⟨0x3FF8000000000000⟩ else none) .Float64
      ⟨0x4000000000000000⟩ "1.5").1 ⟨0x3FF8000000000000⟩ (by decide)).2.1,
    by simpa using ((float_comparison
      (fun s => if s = "1.5" then some ⟨0x3FF8000000000000⟩ else none) .Float32
      ⟨0xBFF0000000000000⟩ "1.5").1 ⟨0x3FF8000000000000⟩ (by decide)).2.2.2.1,
    (((float_comparison
      (fun s => if s = "1.5" then some ⟨0x3FF8000000000000⟩ else none) .Float64
      ⟨0x7FF8000000000000⟩ "1.5").1 ⟨0x3FF8000000000000⟩ (by decide)).2.2.2.2.2
        (by decide)).2.2.1,
    ((float_comparison
      (fun s => if s = "1.5" then some ⟨0x3FF8000000000000⟩ else none) .Float64
      ⟨0x4000000000000000⟩ "abc").2 (by decide)).1,
    by decide, by decide, by decide, by decide⟩

/-- C17: determinism. A call of a built-in predicate leaves the package
variables, the patterns and the registry, as it found them, so a second
invocation on the same value and parameter yields the same outcome, the same
boolean or the same fault, also when calls of other built-in predicates come
in between. The outcome does not depend on the registry; on the patterns it
depends only for the format matchers, which read them and never write them;
for `required` and the comparison predicates it depends on the value and
the parameter alone. The functions the registry holds are these calls. -/
theorem predicates_deterministic (f : Builtin) (v : Value) (p : String) (σ : Globals) :
    (f.call ParseFloat v p σ).2 = σ ∧
    (f.call ParseFloat v p (f.call ParseFloat v p σ).2).1 = (f.call ParseFloat v p σ).1 ∧
    (∀ (g : Builtin) (w : Value) (q : String),
      (f.call ParseFloat v p (g.call ParseFloat w q σ).2).1 = (f.call ParseFloat v p σ).1) ∧
    (∀ τ : Globals, τ.patterns = σ.patterns →
      (f.call ParseFloat v p τ).1 = (f.call ParseFloat v p σ).1) ∧
    (f.isMatcher = false →
      ∀ τ : Globals, (f.call ParseFloat v p τ).1 = (f.call ParseFloat v p σ).1) ∧
    BakedInValidators ParseFloat σ.patterns =
      builtinRegistry.map (fun e => (e.1, fun w q => (e.2.call ParseFloat w q σ).1)) := by
  have hframe : ∀ (g : Builtin) (w : Value) (q : String) (τ : Globals),
      (g.call ParseFloat w q τ).2 = τ := by
    intro g w q τ
    cases g <;> rfl
  have hpat : ∀ τ : Globals, τ.patterns = σ.patterns →
      (f.call ParseFloat v p τ).1 = (f.call ParseFloat v p σ).1 := by
    intro τ h
    cases f <;> simp [Builtin.call, h]
  refine ⟨hframe f v p σ, ?_, ?_, hpat, ?_, rfl⟩
  · rw [hframe f v p σ]
  · intro g w q
    rw [hframe g w q σ]
  · intro hm τ
    cases f <;> first | rfl | exact absurd hm (by decide)

/-- C18: the five comparison predicates fault on the same inputs. On every
value and parameter, either `gte`, `gt`, `lte`, `lt` and `length` all raise
one and the same fault, or all five return a boolean. -/
theorem comparison_faults_agree (v : Value) (p : String) :
    (∃ e, gte ParseFloat v p = .error e ∧ gt ParseFloat v p = .error e ∧
      lte ParseFloat v p = .error e ∧ lt ParseFloat v p = .error e ∧
      length ParseFloat v p = .error e) ∨
    ((∃ b, gte ParseFloat v p = .ok b) ∧ (∃ b, gt ParseFloat v p = .ok b) ∧
      (∃ b, lte ParseFloat v p = .ok b) ∧ (∃ b, lt ParseFloat v p = .ok b) ∧
      (∃ b, length ParseFloat v p = .ok b)) := by
  have hF : ∀ e, AllFault ParseFloat v p e →
      (∃ e, gte ParseFloat v p = .error e ∧ gt ParseFloat v p = .error e ∧
        lte ParseFloat v p = .error e ∧ lt ParseFloat v p = .error e ∧
        length ParseFloat v p = .error e) :=
    fun e h => ⟨e, h.2.2.2.1, h.2.2.2.2.2.2, h.2.2.2.2.1, h.2.2.2.2.2.1, h.1⟩
  have hR : AllReturn ParseFloat v p →
      ((∃ b, gte ParseFloat v p = .ok b) ∧ (∃ b, gt ParseFloat v p = .ok b) ∧
        (∃ b, lte ParseFloat v p = .ok b) ∧ (∃ b, lt ParseFloat v p = .ok b) ∧
        (∃ b, length ParseFloat v p = .ok b)) :=
    fun h => ⟨h.2.2.2.1, h.2.2.2.2.2.2, h.2.2.2.2.1, h.2.2.2.2.2.1, h.1⟩
  rcases category_cases v with hc | hc | hc | hc
  · rcases asInt_cases p with h | ⟨n, h⟩
    · exact Or.inl (hF _ (allFault_of_asInt_error ParseFloat v p hc h))
    · exact Or.inr (hR (allReturn_of_asInt_ok ParseFloat v p n hc h))
  · rcases asUint_cases p with h | ⟨n, h⟩
    · exact Or.inl (hF _ (allFault_of_asUint_error ParseFloat v p hc h))
    · exact Or.inr (hR (allReturn_of_asUint_ok ParseFloat v p n hc h))
  · cases h : ParseFloat p with
    | none => exact Or.inl (hF _ (allFault_of_parseFloat_none ParseFloat v p hc h))
    | some y => exact Or.inr (hR (allReturn_of_parseFloat_some ParseFloat v p y hc h))
  · exact Or.inl (hF _ (allFault_of_other ParseFloat v p hc))

/-- C19: trichotomy and complementarity. On a text, sequence, signed or
unsigned integer value and a parameter on which the predicates do not fault,
exactly one of `lt`, `length` and `gt` is true, `lt` is the negation of
`gte`, `gt` is the negation of `lte`, and `gte` is `gt` or `length`. -/
theorem comparison_trichotomy (v : Value) (p : String)
    (hc : v.category = .Text ∨ v.category = .Sequence ∨ v.category = .SignedInteger ∨
      v.category = .UnsignedInteger)
    (hok : ∃ b, gte ParseFloat v p = .ok b) :
    ∃ bl be bg bge ble : Bool,
      lt ParseFloat v p = .ok bl ∧ length ParseFloat v p = .ok be ∧
      gt ParseFloat v p = .ok bg ∧ gte ParseFloat v p = .ok bge ∧
      lte ParseFloat v p = .ok ble ∧
      ((bl = true ∧ be = false ∧ bg = false) ∨ (bl = false ∧ be = true ∧ bg = false) ∨
        (bl = false ∧ be = false ∧ bg = true)) ∧
      bl = !bge ∧ bg = !ble ∧ bge = (bg || be) := by
  have hsigned : ∀ m : Int, (∀ n, asInt p = .ok n →
      lt ParseFloat v p = .ok (decide (m < n)) ∧ length ParseFloat v p = .ok (decide (m = n)) ∧
      gt ParseFloat v p = .ok (decide (m > n)) ∧ gte ParseFloat v p = .ok (decide (m ≥ n)) ∧
      lte ParseFloat v p = .ok (decide (m ≤ n))) →
      (asInt p = .error .MalformedParameter → gte ParseFloat v p = .error .MalformedParameter) →
      ∃ bl be bg bge ble : Bool,
        lt ParseFloat v p = .ok bl ∧ length ParseFloat v p = .ok be ∧
        gt ParseFloat v p = .ok bg ∧ gte ParseFloat v p = .ok bge ∧
        lte ParseFloat v p = .ok ble ∧
        ((bl = true ∧ be = false ∧ bg = false) ∨ (bl = false ∧ be = true ∧ bg = false) ∨
          (bl = false ∧ be = false ∧ bg = true)) ∧
        bl = !bge ∧ bg = !ble ∧ bge = (bg || be) := by
    intro m hval herr
    rcases asInt_cases p with h | ⟨n, h⟩
    · obtain ⟨b, hb⟩ := hok
      rw [herr h] at hb
      exact Except.noConfusion hb
    · obtain ⟨h1, h2, h3, h4, h5⟩ := hval n h
      obtain ⟨t1, t2, t3, t4⟩ := int_order_tests m n
      exact ⟨_, _, _, _, _, h1, h2, h3, h4, h5, t1, t2, t3, t4⟩
  have hunsigned : ∀ m : Nat, (∀ n, asUint p = .ok n →
      lt ParseFloat v p = .ok (decide (m < n)) ∧ length ParseFloat v p = .ok (decide (m = n)) ∧
      gt ParseFloat v p = .ok (decide (m > n)) ∧ gte ParseFloat v p = .ok (decide (m ≥ n)) ∧
      lte ParseFloat v p = .ok (decide (m ≤ n))) →
      (asUint p = .error .MalformedParameter → gte ParseFloat v p = .error .MalformedParameter) →
      ∃ bl be bg bge ble : Bool,
        lt ParseFloat v p = .ok bl ∧ length ParseFloat v p = .ok be ∧
        gt ParseFloat v p = .ok bg ∧ gte ParseFloat v p = .ok bge ∧
        lte ParseFloat v p = .ok ble ∧
        ((bl = true ∧ be = false ∧ bg = false) ∨ (bl = false ∧ be = true ∧ bg = false) ∨
          (bl = false ∧ be = false ∧ bg = true)) ∧
        bl = !bge ∧ bg = !ble ∧ bge = (bg || be) := by
    intro m hval herr
    rcases asUint_cases p with h | ⟨n, h⟩
    · obtain ⟨b, hb⟩ := hok
      rw [herr h] at hb
      exact Except.noConfusion hb
    · obtain ⟨h1, h2, h3, h4, h5⟩ := hval n h
      obtain ⟨t1, t2, t3, t4⟩ := nat_order_tests m n
      exact ⟨_, _, _, _, _, h1, h2, h3, h4, h5, t1, t2, t3, t4⟩
  cases v with
  | str named s =>
    apply hsigned (s.utf8ByteSize : Int)
    · intro n h
      simp [length, gte, lte, lt, gt, Value.kind, Value.getString, h, bind, Except.bind, pure,
        Except.pure]
    · intro h
      simp [gte, Value.kind, h, bind, Except.bind]
  | slice k =>
    apply hsigned ((Value.slice k).len : Int)
    · intro n h
      simp [length, gte, lte, lt, gt, Value.kind, h, bind, Except.bind, pure, Except.pure]
    · intro h
      simp [gte, Value.kind, h, bind, Except.bind]
  | map k =>
    apply hsigned ((Value.map k).len : Int)
    · intro n h
      simp [length, gte, lte, lt, gt, Value.kind, h, bind, Except.bind, pure, Except.pure]
    · intro h
      simp [gte, Value.kind, h, bind, Except.bind]
  | array k c z =>
    apply hsigned ((Value.array k c z).len : Int)
    · intro n h
      simp [length, gte, lte, lt, gt, Value.kind, h, bind, Except.bind, pure, Except.pure]
    · intro h
      simp [gte, Value.kind, h, bind, Except.bind]
  | int k x =>
    apply hsigned x
    · intro n h
      cases k <;>
      simp [length, gte, lte, lt, gt, Value.kind, Value.getInt, h, bind, Except.bind, pure,
        Except.pure]
    · intro h
      cases k <;> simp [gte, Value.kind, h, bind, Except.bind]
  | uint k x =>
    apply hunsigned x
    · intro n h
      cases k <;>
      simp [length, gte, lte, lt, gt, Value.kind, Value.getUint, h, bind, Except.bind, pure,
        Except.pure]
    · intro h
      cases k <;> simp [gte, Value.kind, h, bind, Except.bind]
  | float k x => cases k <;> simp [Value.category, Value.kind, Kind.category] at hc
  | complex k re im => cases k <;> simp [Value.category, Value.kind, Kind.category] at hc
  | _ => simp [Value.category, Value.kind, Kind.category] at hc

/-- Witness of C19: a text of three bytes against "3", and the `uint8` 200
against "0x10". -/
theorem comparison_trichotomy_witness :
    (∃ bl be bg bge ble : Bool,
      lt (fun _ => none) (.str false "abc") "3" = .ok bl ∧
      length (fun _ => none) (.str false "abc") "3" = .ok be ∧
      gt (fun _ => none) (.str false "abc") "3" = .ok bg ∧
      gte (fun _ => none) (.str false "abc") "3" = .ok bge ∧
      lte (fun _ => none) (.str false "abc") "3" = .ok ble ∧
      ((bl = true ∧ be = false ∧ bg = false) ∨ (bl = false ∧ be = true ∧ bg = false) ∨
        (bl = false ∧ be = false ∧ bg = true)) ∧
      bl = !bge ∧ bg = !ble ∧ bge = (bg || be)) ∧
    length (fun _ => none) (.str false "abc") "3" = .ok true ∧
    gt (fun _ => none) (.uint .Uint8 200) "0x10" = .ok true :=
  ⟨comparison_trichotomy (fun _ => none) (.str false "abc") "3" (Or.inl (by decide))
    ⟨true, by decide⟩, by decide, by decide⟩

/-- C20: a leading zero means octal, and `length` compares bytes. `asInt`
and `asUint` take "010" to 8, and `0` followed by octal digits to the number
they denote in base 8; "08" is rejected with `MalformedParameter`; `length`
with "010" is true on a text of 8 bytes, such as one of 8 ASCII characters,
and false on a text of 10 characters. It is false on the text "éééééééé" of
8 characters, which takes 16 bytes, and true on "éééé" of 4 characters. -/
theorem leading_zero_is_octal (named : Bool) :
    asInt "010" = .ok 8 ∧ asUint "010" = .ok 8 ∧
    asInt "08" = .error .MalformedParameter ∧ asUint "08" = .error .MalformedParameter ∧
    (∀ ds : List Char, ds ≠ [] → (∀ c ∈ ds, isDigit 8 c = true) →
      (digitsValue 8 ds < 2 ^ 64 →
        asUint (String.mk ('0' :: ds)) = .ok (digitsValue 8 ds)) ∧
      (digitsValue 8 ds < 2 ^ 63 →
        asInt (String.mk ('0' :: ds)) = .ok (digitsValue 8 ds : Nat))) ∧
    (∀ s : String, s.utf8ByteSize = 8 → length ParseFloat (.str named s) "010" = .ok true) ∧
    (∀ s : String, s.length = 8 → (∀ c ∈ s.toList, c.toNat < 128) →
      length ParseFloat (.str named s) "010" = .ok true) ∧
    (∀ s : String, s.length = 10 → length ParseFloat (.str named s) "010" = .ok false) ∧
    length ParseFloat (.str named "abcdefgh") "010" = .ok true ∧
    length ParseFloat (.str named "abcdefghij") "010" = .ok false ∧
    length ParseFloat (.str named "abcdefghij") "10" = .ok true ∧
    "éééééééé".length = 8 ∧ "éééééééé".utf8ByteSize = 16 ∧
    length ParseFloat (.str named "éééééééé") "010" = .ok false ∧
    "éééé".length = 4 ∧
    length ParseFloat (.str named "éééé") "010" = .ok true := by
  have h8 : asInt "010" = .ok 8 := by decide
  have hlen : ∀ s : String, length ParseFloat (.str named s) "010" =
      .ok (decide ((s.utf8ByteSize : Int) = 8)) := by
    intro s
    simp [length, Value.kind, Value.getString, h8, bind, Except.bind, pure, Except.pure]
  refine ⟨h8, by decide, by decide, by decide, ?_, ?_, ?_, ?_, rfl, rfl, rfl, by decide,
    by decide, rfl, by decide, rfl⟩
  · intro ds hne hd
    have hlit : UintLiteral ('0' :: ds) (digitsValue 8 ds) :=
      UintLiteral.octal ds (Or.inl (digitSeq_of_digits 8 ds hne hd))
    constructor
    · intro hr
      rw [asUint_ok_iff]
      exact parseUint_of_literal _ _ hlit hr
    · intro hr
      rw [asInt_ok_iff, parseInt_iff]
      exact ⟨IntLiteral.plain _ _ hlit, by omega, by omega⟩
  · intro s hs
    rw [hlen s, hs]
    rfl
  · intro s hs hascii
    rw [hlen s, utf8ByteSize_ascii s hascii, hs]
    rfl
  · intro s hs
    rw [hlen s]
    have := length_le_utf8ByteSize s
    have hne : ¬ ((s.utf8ByteSize : Int) = 8) := by omega
    simp [hne]

end Claims

end Validator
